import Mathlib

/-!
# MT19937-64 (`mt64.c`): a shallow embedding and its verification

The generator state `mt64_t` is a record of the word vector `mt`, the cursor
`mti` and the flag `initialized`.  Memory accesses are checked: a read or a
write outside its array yields `none`, so a result `some _` records that every
index used on the way was in range.  Words are natural numbers, and every
unsigned 64-bit operation of the C text is reduced modulo `2^64` where it can
overflow.

The header `mt64.h` is not part of the sources at hand.  The sizes `NN` and
`MM` are the ones the specification gives; the macros `MATRIX_A`, `UM`, `LM`
are parameters (`Macros`).
-/

namespace MT64

/-! ## Data model -/

/-- Modelled from the spec: the macro `NN` of the absent header `mt64.h`
("N = 312 for W=64"). -/
def NN : Nat := 312

/-- Modelled from the spec: the macro `MM` of the absent header `mt64.h`
("the twist shift distance: ... 156 for W=64"). -/
def MM : Nat := 156

/-- Modelled from the spec: the macros `MATRIX_A`, `UM`, `LM` of the absent
header `mt64.h` (the twist matrix coefficient and the upper and lower masks),
taken as parameters of the twist. -/
structure Macros where
  MATRIX_A : Nat
  UM : Nat
  LM : Nat

/-- Modelled from the spec: the struct `mt64_t` of the absent header `mt64.h`
(`words`, `cursor`, `initialized` of the data model): the array `mt[NN]`, the
integer index `mti` and the flag `initialized`. -/
structure mt64_t where
  mt : List Nat
  mti : Int
  initialized : Bool

/-- Checked array read `a[i]`: `none` when `i` is outside the array. -/
def rd (a : List Nat) (i : Int) : Option Nat :=
  if 0 ≤ i then a[i.toNat]? else none

/-- Checked array write `a[i] = v`: `none` when `i` is outside the array. -/
def wr (a : List Nat) (i : Int) (v : Nat) : Option (List Nat) :=
  if 0 ≤ i ∧ i.toNat < a.length then some (a.set i.toNat v) else none

/-- The `for` loop `for (i = i0; i < i0 + n; i++) body`: `n` iterations of a
fallible body, the iteration index passed to the body. -/
def forLoop {σ : Type} (body : Nat → σ → Option σ) : Nat → Nat → σ → Option σ
  | 0, _, s => some s
  | n + 1, i, s => (body i s).bind (forLoop body n (i + 1))

/-! ## Unsigned 64-bit arithmetic -/

/-- Conversion of a C `int` to `uint64_t`. -/
def toU64 (i : Int) : Nat := (i % 2 ^ 64).toNat

/-- Wrapping `uint64_t` addition. -/
def add64 (a b : Nat) : Nat := (a + b) % 2 ^ 64

/-- Wrapping `uint64_t` subtraction. -/
def sub64 (a b : Nat) : Nat := (a + (2 ^ 64 - b % 2 ^ 64)) % 2 ^ 64

/-- Wrapping `uint64_t` multiplication. -/
def mul64 (a b : Nat) : Nat := (a * b) % 2 ^ 64

/-- Left shift of a `uint64_t`, truncated to 64 bits. -/
def shl64 (a k : Nat) : Nat := (a <<< k) % 2 ^ 64

/-! ## `init_genrand64` -/

/-- Body of the loop of `init_genrand64` (line 65), at the current `s->mti`. -/
def init_genrand64_body (_ : Nat) (s : mt64_t) : Option mt64_t := do
  let p ← rd s.mt (s.mti - 1)
  let mt ← wr s.mt s.mti
    (add64 (mul64 6364136223846793005 (p ^^^ (p >>> 62))) (toU64 s.mti))
  some { s with mt := mt, mti := s.mti + 1 }

/-- Function `init_genrand64(s, seed)`: initializes `mt[NN]` with a seed.  The
loop runs for `s->mti = 1, ..., NN-1`. -/
def init_genrand64 (s : mt64_t) (seed : Nat) : Option mt64_t := do
  let mt ← wr s.mt 0 seed
  let s ← forLoop init_genrand64_body (NN - 1) 1 { s with mt := mt, mti := 1 }
  some { s with initialized := true }

/-! ## `init_by_array64` -/

/-- Local state of `init_by_array64`: the words `s->mt` and the `unsigned int`
indices `i`, `j`. -/
structure ArrSt where
  mt : List Nat
  i : Nat
  j : Nat

/-- Body of the first loop of `init_by_array64` (lines 81-85). -/
def init_by_array64_body1 (keys : List Nat) (key_len : Nat) (_ : Nat) (a : ArrSt) :
    Option ArrSt := do
  let w ← rd a.mt a.i
  let p ← rd a.mt ((a.i : Int) - 1)
  let key ← rd keys a.j
  let mt ← wr a.mt a.i
    (add64 (add64 (w ^^^ mul64 (p ^^^ (p >>> 62)) 3935559000370003845) key) a.j)
  let i := (a.i + 1) % 2 ^ 32
  let j := (a.j + 1) % 2 ^ 32
  let a ← if i ≥ NN then do
      let l ← rd mt ((NN : Int) - 1)
      let mt ← wr mt 0 l
      some { mt := mt, i := 1, j := j : ArrSt }
    else some { mt := mt, i := i, j := j }
  some (if a.j ≥ key_len then { a with j := 0 } else a)

/-- Body of the second loop of `init_by_array64` (lines 88-91). -/
def init_by_array64_body2 (_ : Nat) (a : ArrSt) : Option ArrSt := do
  let w ← rd a.mt a.i
  let p ← rd a.mt ((a.i : Int) - 1)
  let mt ← wr a.mt a.i
    (sub64 (w ^^^ mul64 (p ^^^ (p >>> 62)) 2862933555777941757) a.i)
  let i := (a.i + 1) % 2 ^ 32
  if i ≥ NN then do
    let l ← rd mt ((NN : Int) - 1)
    let mt ← wr mt 0 l
    some { mt := mt, i := 1, j := a.j }
  else some { mt := mt, i := i, j := a.j }

/-- Function `init_by_array64(s, keys, key_len)`: initialize by an array with
array-length.  `keys` holds the elements of the caller's array. -/
def init_by_array64 (s : mt64_t) (keys : List Nat) (key_len : Nat) : Option mt64_t := do
  let k := if NN > key_len then NN else key_len
  let s ← init_genrand64 s 19650218
  let a ← forLoop (init_by_array64_body1 keys key_len) k 0 { mt := s.mt, i := 1, j := 0 }
  let a ← forLoop init_by_array64_body2 (NN - 1) 0 a
  let mt ← wr a.mt 0 (shl64 1 63)
  some { s with mt := mt, initialized := true }

/-! ## `genrand64_int64` -/

/-- The table `mag01[2] = {0, MATRIX_A}`, read at `x & 1`. -/
def mag01 (c : Macros) (b : Nat) : Nat := if b = 0 then 0 else c.MATRIX_A

/-- Body of the first twist loop (lines 112-113), `0 <= i < NN-MM`. -/
def twist_body1 (c : Macros) (i : Nat) (mt : List Nat) : Option (List Nat) := do
  let a ← rd mt i
  let b ← rd mt ((i : Int) + 1)
  let x := (a &&& c.UM) ||| (b &&& c.LM)
  let m ← rd mt ((i : Int) + MM)
  wr mt i (m ^^^ (x >>> 1) ^^^ mag01 c (x &&& 1))

/-- Body of the second twist loop (lines 116-117), `NN-MM <= i < NN-1`. -/
def twist_body2 (c : Macros) (i : Nat) (mt : List Nat) : Option (List Nat) := do
  let a ← rd mt i
  let b ← rd mt ((i : Int) + 1)
  let x := (a &&& c.UM) ||| (b &&& c.LM)
  let m ← rd mt ((i : Int) + ((MM : Int) - NN))
  wr mt i (m ^^^ (x >>> 1) ^^^ mag01 c (x &&& 1))

/-- The three ranges of lines 111-120: recompute the `NN` words in place. -/
def twist_words (c : Macros) (mt : List Nat) : Option (List Nat) := do
  let mt ← forLoop (twist_body1 c) (NN - MM) 0 mt
  let mt ← forLoop (twist_body2 c) ((NN - 1) - (NN - MM)) (NN - MM) mt
  let a ← rd mt ((NN : Int) - 1)
  let b ← rd mt 0
  let x := (a &&& c.UM) ||| (b &&& c.LM)
  let m ← rd mt ((MM : Int) - 1)
  wr mt ((NN : Int) - 1) (m ^^^ (x >>> 1) ^^^ mag01 c (x &&& 1))

/-- The block of lines 105-123: generate `NN` words at one time, seeding with
5489 first when `init_genrand64` has not been called. -/
def twist (c : Macros) (s : mt64_t) : Option mt64_t := do
  let s ← if !s.initialized then init_genrand64 s 5489 else some s
  let mt ← twist_words c s.mt
  some { s with mt := mt, mti := 0 }

/-- The tempering of lines 127-130. -/
def temper (x : Nat) : Nat :=
  let x := x ^^^ ((x >>> 29) &&& 0x5555555555555555)
  let x := x ^^^ (shl64 x 17 &&& 0x71D67FFFEDA60000)
  let x := x ^^^ (shl64 x 37 &&& 0xFFF7EEE000000000)
  x ^^^ (x >>> 43)

/-- Function `genrand64_int64(s)`: generates a random number on the
`[0, 2^64-1]` interval; returns the number and the state left behind. -/
def genrand64_int64 (c : Macros) (s : mt64_t) : Option (Nat × mt64_t) := do
  let s ← if s.mti ≥ NN then twist c s else some s
  let x ← rd s.mt s.mti
  let s := { s with mti := s.mti + 1 }
  some (temper x, s)

/-- A sample value of the parameters `MATRIX_A`, `UM`, `LM`: the constants of
the published MT19937-64 program (`0xB5026F5AA96619E9`, most significant 33
bits, least significant 31 bits).  They are not taken from the repository,
whose header is absent, and differ from the split the specification
describes (`specSplit`). -/
def refMacros : Macros :=
  { MATRIX_A := 0xB5026F5AA96619E9, UM := 0xFFFFFFFF80000000, LM := 0x7FFFFFFF }

/-- The state a caller gets from `calloc`: all words 0, cursor 0, not
initialized. -/
def zeroState : mt64_t := { mt := List.replicate NN 0, mti := 0, initialized := false }

/-! ## Consecutive calls -/

/-- The state left by `k` consecutive calls of `genrand64_int64`. -/
def genrand64_int64_state (c : Macros) : Nat → mt64_t → Option mt64_t
  | 0, s => some s
  | k + 1, s => (genrand64_int64_state c k s).bind fun t =>
      (genrand64_int64 c t).map Prod.snd

/-- The values returned by `n` consecutive calls of `genrand64_int64`. -/
def genrand64_int64_outputs (c : Macros) : Nat → mt64_t → Option (List Nat)
  | 0, _ => some []
  | n + 1, s => (genrand64_int64 c s).bind fun r =>
      (genrand64_int64_outputs c n r.2).map fun xs => r.1 :: xs

/-! ## The reference run -/

/-- The key sequence of the published MT19937-64 reference run. -/
def refKeys : List Nat := [0x12345, 0x23456, 0x34567, 0x45678]

/-! ## The array-seeding algorithm as the specification words it -/

/-- State after `n` steps numbered `t0, t0+1, ...` of a pass over the words. -/
def spec_iter (step : Nat → List Nat → List Nat) (t0 : Nat) : Nat → List Nat → List Nat
  | 0, w => w
  | n + 1, w => step (t0 + n) (spec_iter step t0 n w)

/-- Step `t` of the key-mixing pass: with `i = 1 + (t mod 311)` and
`j = t mod L`, `words[i] = ((words[i] XOR ((words[i-1] XOR (words[i-1] >> 62))
* 3935559000370003845)) + keys[j] + j) mod 2^64`, and `words[311]` is copied
into `words[0]` when `i` wraps from 311 back to 1. -/
def spec_mix_step (keys : List Nat) (t : Nat) (w : List Nat) : List Nat :=
  let i := 1 + t % 311
  let j := t % keys.length
  let p := w.getD (i - 1) 0
  let w := w.set i
    (((w.getD i 0 ^^^ ((p ^^^ (p >>> 62)) * 3935559000370003845)) + keys.getD j 0 + j) % 2 ^ 64)
  if i = 311 then w.set 0 (w.getD 311 0) else w

/-- Step `t` of the second pass: with `i = 1 + (t mod 311)`,
`words[i] = ((words[i] XOR ((words[i-1] XOR (words[i-1] >> 62)) *
2862933555777941757)) - i) mod 2^64`, with the same wrap-and-carry. -/
def spec_fin_step (t : Nat) (w : List Nat) : List Nat :=
  let i := 1 + t % 311
  let p := w.getD (i - 1) 0
  let w := w.set i
    ((((w.getD i 0 ^^^ ((p ^^^ (p >>> 62)) * 2862933555777941757) : Nat) : Int) - (i : Int))
      % 2 ^ 64).toNat
  if i = 311 then w.set 0 (w.getD 311 0) else w

/-- Array seeding as the specification words it: (1) scalar seeding with
19650218; (2) `max(312, L)` key-mixing steps; (3) 311 further steps of the
second pass, continuing the same circular index; (4) `words[0] = 2^63`. -/
def spec_init_by_array64 (s : mt64_t) (keys : List Nat) : Option mt64_t :=
  (init_genrand64 s 19650218).map fun s0 =>
    let T := max 312 keys.length
    let w := spec_iter (spec_mix_step keys) 0 T s0.mt
    let w := spec_iter spec_fin_step T 311 w
    { s0 with mt := w.set 0 (2 ^ 63) }

/-! ## The twist recurrence as the specification words it -/

/-- The mixing value `x = (a AND UM) OR (b AND LM)`. -/
def spec_x (c : Macros) (a b : Nat) : Nat := (a &&& c.UM) ||| (b &&& c.LM)

/-- One word of the recurrence: `m XOR (x >> 1) XOR (MATRIX_A if x is odd else
0)` with `x` the mixing value of `a` and `b`. -/
def spec_twist_word (c : Macros) (a b m : Nat) : Nat :=
  m ^^^ (spec_x c a b >>> 1) ^^^ (if spec_x c a b % 2 = 1 then c.MATRIX_A else 0)

/-! ## Word-by-word form of the seedings

Each word the seeding functions leave, as a recurrence on numbers.  The lemmas
`init_genrand64_words` and `init_by_array64_words` prove that the code leaves
these words; the reference run is evaluated on them. -/

/-- Word `i` of scalar seeding. -/
def seedWord (seed : Nat) : Nat → Nat
  | 0 => seed
  | i + 1 => (6364136223846793005 * (seedWord seed i ^^^ (seedWord seed i >>> 62)) + (i + 1))
      % 2 ^ 64

/-- Word `i` as the first sweep of the first loop of `init_by_array64` writes
it (key length at most `NN`); word 0 is the seeded one. -/
def mixWord (keys : List Nat) : Nat → Nat
  | 0 => seedWord 19650218 0
  | n + 1 => add64 (add64 (seedWord 19650218 (n + 1) ^^^
      mul64 (mixWord keys n ^^^ (mixWord keys n >>> 62)) 3935559000370003845)
      (keys.getD (n % keys.length) 0)) (n % keys.length)

/-- Word 1 after the last iteration (number 311) of the first loop. -/
def mixWord1 (keys : List Nat) : Nat :=
  add64 (add64 (mixWord keys 1 ^^^
      mul64 (mixWord keys 311 ^^^ (mixWord keys 311 >>> 62)) 3935559000370003845)
      (keys.getD (311 % keys.length) 0)) (311 % keys.length)

/-- Word `i >= 2` as the second loop of `init_by_array64` writes it; at 1 the
word the second loop starts from. -/
def finWord (keys : List Nat) : Nat → Nat
  | 0 => mixWord1 keys
  | n + 1 => if n = 0 then mixWord1 keys else
      sub64 (mixWord keys (n + 1) ^^^
        mul64 (finWord keys n ^^^ (finWord keys n >>> 62)) 2862933555777941757) (n + 1)

/-- Word 1 after the last iteration of the second loop. -/
def finWord1 (keys : List Nat) : Nat :=
  sub64 (mixWord1 keys ^^^
    mul64 (finWord keys 311 ^^^ (finWord keys 311 >>> 62)) 2862933555777941757) 1

/-- Word `j` after `t` iterations of the first loop (`t <= 312`). -/
def arr1 (keys : List Nat) (t j : Nat) : Nat :=
  if j = 0 then (if 311 ≤ t then mixWord keys 311 else seedWord 19650218 0)
  else if j = 1 ∧ 312 ≤ t then mixWord1 keys
  else if j ≤ t then mixWord keys j else seedWord 19650218 j

/-- Word `j` after `u` iterations of the second loop (`u <= 311`). -/
def arr2 (keys : List Nat) (u j : Nat) : Nat :=
  if j = 0 then (if 310 ≤ u then finWord keys 311 else mixWord keys 311)
  else if j = 1 then (if 311 ≤ u then finWord1 keys else mixWord1 keys)
  else if j ≤ u + 1 then finWord keys j else mixWord keys j

/-! ## Derived outputs

The `double` values are rationals, and the `double` operations are the IEEE
binary64 ones, rounding to nearest with ties to even.  The conversions of
`r >> 11 < 2^53` and `r >> 12 < 2^52` to `double` are exact.  For
`genrand64_real2` and `genrand64_real3` no operation rounds:
`1.0/9007199254740992.0` and `1.0/4503599627370496.0` are powers of two and
`(r >> 12) + 0.5` has at most 53 bits.  For `genrand64_real1` the constant
`1.0/9007199254740991.0` is the double `(2^52 + 1) / 2^105` (`recip53`) and
the product is rounded to 53 significant bits (`round53`). -/

/-- Conversion `(int64_t)u` of a `uint64_t` value. -/
def toI64 (u : Nat) : Int := if u < 2 ^ 63 then (u : Int) else (u : Int) - 2 ^ 64

/-- Function `genrand64_int63(s)`: a random number on the `[0, 2^63-1]`
interval. -/
def genrand64_int63 (c : Macros) (s : mt64_t) : Option (Int × mt64_t) := do
  let r ← genrand64_int64 c s
  some (toI64 (r.1 >>> 1), r.2)

/-- Rounding of a natural number to 53 significant bits, to nearest with ties
to even: with `2^k <= N < 2^(k+1)` and `k >= 53`, `N` is rounded to a multiple
of `2^(k-52)`. -/
def round53 (N : Nat) : Nat :=
  if N < 2 ^ 53 then N
  else
    let s := Nat.log2 N - 52
    let m := N / 2 ^ s
    let rem := N % 2 ^ s
    (if 2 * rem > 2 ^ s ∨ (2 * rem = 2 ^ s ∧ m % 2 = 1) then m + 1 else m) * 2 ^ s

/-- The double constant `1.0/9007199254740991.0`: the double nearest to
`1/(2^53 - 1)`, with significand `2^52 + 1` and exponent `-105`. -/
def recip53 : ℚ := (2 ^ 52 + 1) / 2 ^ 105

/-- The double product `n * (1.0/9007199254740991.0)` for an integer
`n < 2^53`: the exact product `n * (2^52 + 1) / 2^105`, its numerator rounded
to 53 significant bits. -/
def mulRecip53 (n : Nat) : ℚ := (round53 (n * (2 ^ 52 + 1)) : ℚ) / 2 ^ 105

/-- Function `genrand64_real1(s)`: a random number on the `[0,1]` real
interval. -/
def genrand64_real1 (c : Macros) (s : mt64_t) : Option (ℚ × mt64_t) := do
  let r ← genrand64_int64 c s
  some (mulRecip53 (r.1 >>> 11), r.2)

/-- Function `genrand64_real2(s)`: a random number on the `[0,1)` real
interval. -/
def genrand64_real2 (c : Macros) (s : mt64_t) : Option (ℚ × mt64_t) := do
  let r ← genrand64_int64 c s
  some (((r.1 >>> 11 : Nat) : ℚ) * (1 / 9007199254740992), r.2)

/-- Function `genrand64_real3(s)`: a random number on the `(0,1)` real
interval. -/
def genrand64_real3 (c : Macros) (s : mt64_t) : Option (ℚ × mt64_t) := do
  let r ← genrand64_int64 c s
  some ((((r.1 >>> 12 : Nat) : ℚ) + 1 / 2) * (1 / 4503599627370496), r.2)

/-- Modelled from the spec: the macros `UM` and `LM` of the absent header
`mt64.h` as the specification describes the split ("bit W-1 alone upper,
remaining W-1 bits lower"), for a matrix coefficient `A`. -/
def specSplit (A : Nat) : Macros := { MATRIX_A := A, UM := 2 ^ 63, LM := 2 ^ 63 - 1 }

/-! ## Memory access lemmas -/

theorem rd_eq (a : List Nat) (i : Int) (n : Nat) (hi : i = n) (hn : n < a.length) :
    rd a i = some (a.getD n 0) := by
  subst hi
  simp [rd, List.getElem?_eq_getElem hn]

theorem wr_eq (a : List Nat) (i : Int) (n : Nat) (v : Nat) (hi : i = n) (hn : n < a.length) :
    wr a i v = some (a.set n v) := by
  subst hi
  simp [wr, hn]

theorem getD_set_eq (a : List Nat) (n v : Nat) (hn : n < a.length) :
    (a.set n v).getD n 0 = v := by
  simp [List.getElem?_set, hn]

theorem getD_set_ne (a : List Nat) (n m v : Nat) (h : n ≠ m) :
    (a.set n v).getD m 0 = a.getD m 0 := by
  simp [List.getElem?_set, h]

theorem list_ext_getD (a b : List Nat) (hl : a.length = b.length)
    (h : ∀ i, i < a.length → a.getD i 0 = b.getD i 0) : a = b := by
  apply List.ext_getElem?
  intro n
  by_cases hn : n < a.length
  · have hb : n < b.length := hl ▸ hn
    have := h n hn
    simp [List.getElem?_eq_getElem hn, List.getElem?_eq_getElem hb] at this
    simp [List.getElem?_eq_getElem hn, List.getElem?_eq_getElem hb, this]
  · have hb : ¬ n < b.length := hl ▸ hn
    rw [List.getElem?_eq_none (by omega), List.getElem?_eq_none (by omega)]

/-- Invariant rule for `forLoop`: an invariant kept by every iteration with
index below `hi` holds after the loop, and the loop yields a result. -/
theorem forLoop_inv {σ : Type} (body : Nat → σ → Option σ) (Inv : Nat → σ → Prop) (hi : Nat)
    (step : ∀ i s, i < hi → Inv i s → ∃ s', body i s = some s' ∧ Inv (i + 1) s') :
    ∀ n i s, i + n ≤ hi → Inv i s → ∃ s', forLoop body n i s = some s' ∧ Inv (i + n) s' := by
  intro n
  induction n with
  | zero => intro i s _ h; exact ⟨s, rfl, h⟩
  | succ n ih =>
    intro i s hb h
    obtain ⟨s1, h1, hinv1⟩ := step i s (by omega) h
    obtain ⟨s2, h2, hinv2⟩ := ih (i + 1) s1 (by omega) hinv1
    refine ⟨s2, ?_, ?_⟩
    · simp [forLoop, h1, h2]
    · have : i + (n + 1) = i + 1 + n := by omega
      rw [this]; exact hinv2

theorem toU64_ofNat (n : Nat) (h : n < 2 ^ 64) : toU64 (n : Int) = n := by
  unfold toU64
  norm_num at h ⊢
  omega

/-! ## `init_genrand64` -/

theorem init_genrand64_body_eq (s : mt64_t) (t i : Nat) (hl : s.mt.length = NN)
    (hm : s.mti = i) (h1 : 1 ≤ i) (h2 : i < NN) :
    init_genrand64_body t s = some { s with
      mt := s.mt.set i (add64 (mul64 6364136223846793005
        (s.mt.getD (i - 1) 0 ^^^ (s.mt.getD (i - 1) 0 >>> 62))) i),
      mti := s.mti + 1 } := by
  unfold init_genrand64_body
  rw [rd_eq s.mt (s.mti - 1) (i - 1) (by omega) (by omega)]
  simp only [Option.bind_eq_bind, Option.some_bind]
  rw [wr_eq s.mt s.mti i _ hm (by omega)]
  have : toU64 s.mti = i := by
    rw [hm]; apply toU64_ofNat; unfold NN at h2; omega
  simp [this]

/-- The recurrence of scalar seeding, `words[i]` from `words[i-1]`. -/
theorem seed_step_eq (p i : Nat) :
    add64 (mul64 6364136223846793005 (p ^^^ (p >>> 62))) i
      = (6364136223846793005 * (p ^^^ (p >>> 62)) + i) % 2 ^ 64 := by
  simp [add64, mul64, Nat.mod_add_mod]

/-- Postcondition of `init_genrand64` on a state whose array has `NN` words. -/
theorem init_genrand64_post (s : mt64_t) (seed : Nat) (hl : s.mt.length = NN) :
    ∃ s', init_genrand64 s seed = some s' ∧ s'.mt.length = NN ∧ s'.mt.getD 0 0 = seed ∧
      (∀ i, 1 ≤ i → i < NN → s'.mt.getD i 0
        = (6364136223846793005 * (s'.mt.getD (i - 1) 0 ^^^ (s'.mt.getD (i - 1) 0 >>> 62)) + i)
            % 2 ^ 64) ∧
      s'.mti = NN ∧ s'.initialized = true := by
  have hN : NN = 312 := rfl
  have h0 : wr s.mt 0 seed = some (s.mt.set 0 seed) := wr_eq s.mt 0 0 seed rfl (by omega)
  obtain ⟨s1, hs1, hinv⟩ := forLoop_inv init_genrand64_body
    (fun i (t : mt64_t) => t.mti = i ∧ 1 ≤ i ∧ t.mt.length = NN ∧ t.initialized = s.initialized ∧
      t.mt.getD 0 0 = seed ∧
      ∀ j, 1 ≤ j → j < i → t.mt.getD j 0
        = (6364136223846793005 * (t.mt.getD (j - 1) 0 ^^^ (t.mt.getD (j - 1) 0 >>> 62)) + j)
            % 2 ^ 64)
    NN
    (by
      intro i t hi ⟨hm, h1, hlen, hini, hz, hrec⟩
      refine ⟨_, init_genrand64_body_eq t i i hlen hm h1 hi, ?_⟩
      refine ⟨by simp [hm], by omega, by simp [hlen], hini, ?_, ?_⟩
      · simp only []
        rw [getD_set_ne _ _ _ _ (by omega)]; exact hz
      · intro j hj1 hj2
        simp only []
        by_cases hji : j = i
        · subst hji
          rw [getD_set_eq _ _ _ (by omega), getD_set_ne _ _ _ _ (by omega), seed_step_eq]
        · rw [getD_set_ne _ _ _ _ (by omega), getD_set_ne _ _ _ _ (by omega)]
          exact hrec j hj1 (by omega))
    (NN - 1) 1 { s with mt := s.mt.set 0 seed, mti := 1 } (by omega)
    ⟨rfl, by omega, by simp [hl], rfl, by simp [List.getElem?_set, hl, hN], by intro j h1 h2; omega⟩
  obtain ⟨hm, _, hlen, _, hz, hrec⟩ := hinv
  refine ⟨{ s1 with initialized := true }, ?_, hlen, hz, ?_, ?_, rfl⟩
  · simp [init_genrand64, h0, hs1]
  · intro i hi1 hi2
    exact hrec i hi1 (by omega)
  · simp only [hm]; omega

/-- The result of `init_genrand64` does not depend on the prior state. -/
theorem init_genrand64_indep (s1 s2 : mt64_t) (seed : Nat)
    (h1 : s1.mt.length = NN) (h2 : s2.mt.length = NN) :
    init_genrand64 s1 seed = init_genrand64 s2 seed := by
  obtain ⟨a, ha, hla, hza, hra, hma, hia⟩ := init_genrand64_post s1 seed h1
  obtain ⟨b, hb, hlb, hzb, hrb, hmb, hib⟩ := init_genrand64_post s2 seed h2
  rw [ha, hb]
  have hw : ∀ i, i < NN → a.mt.getD i 0 = b.mt.getD i 0 := by
    intro i
    induction i with
    | zero => intro _; rw [hza, hzb]
    | succ n ih =>
      intro hn
      have e := ih (by omega)
      have ea := hra (n + 1) (by omega) hn
      have eb := hrb (n + 1) (by omega) hn
      simp only [Nat.add_sub_cancel] at ea eb
      rw [ea, eb, e]
  have hmt : a.mt = b.mt := list_ext_getD a.mt b.mt (by rw [hla, hlb]) (by
    intro i hi; exact hw i (by rw [← hla]; exact hi))
  cases a; cases b
  simp only [mt64_t.mk.injEq, Option.some.injEq] at *
  exact ⟨hmt, by rw [hma, hmb], by rw [hia, hib]⟩

/-! ## `init_by_array64` -/

theorem init_by_array64_body1_eq (keys : List Nat) (key_len t : Nat) (a : ArrSt)
    (hl : a.mt.length = NN) (hi1 : 1 ≤ a.i) (hi2 : a.i < NN) (hj : a.j < keys.length) :
    init_by_array64_body1 keys key_len t a = some
      { mt :=
          (if a.i + 1 ≥ NN then
            fun w : List Nat => w.set 0 (w.getD (NN - 1) 0)
          else fun w => w)
          (a.mt.set a.i (add64 (add64 (a.mt.getD a.i 0 ^^^
            mul64 (a.mt.getD (a.i - 1) 0 ^^^ (a.mt.getD (a.i - 1) 0 >>> 62))
              3935559000370003845) (keys.getD a.j 0)) a.j)),
        i := if a.i + 1 ≥ NN then 1 else a.i + 1,
        j := if (a.j + 1) % 2 ^ 32 ≥ key_len then 0 else (a.j + 1) % 2 ^ 32 } := by
  have hN : NN = 312 := rfl
  unfold init_by_array64_body1
  rw [rd_eq a.mt a.i a.i rfl (by omega), rd_eq a.mt ((a.i : Int) - 1) (a.i - 1) (by omega) (by omega),
    rd_eq keys a.j a.j rfl hj]
  simp only [Option.bind_eq_bind, Option.some_bind]
  rw [wr_eq a.mt a.i a.i _ rfl (by omega)]
  simp only [Option.some_bind]
  have hmod : (a.i + 1) % 2 ^ 32 = a.i + 1 := by
    apply Nat.mod_eq_of_lt; norm_num; omega
  rw [hmod]
  by_cases hw : a.i + 1 ≥ NN
  · rw [if_pos hw, if_pos hw, if_pos hw]
    rw [rd_eq _ ((NN : Int) - 1) (NN - 1) (by omega) (by simp; omega)]
    simp only [Option.some_bind]
    rw [wr_eq _ 0 0 _ rfl (by simp; omega)]
    simp only [Option.some_bind]
    split <;> rfl
  · rw [if_neg hw, if_neg hw, if_neg hw]
    split <;> rfl

theorem init_by_array64_body2_eq (t : Nat) (a : ArrSt)
    (hl : a.mt.length = NN) (hi1 : 1 ≤ a.i) (hi2 : a.i < NN) :
    init_by_array64_body2 t a = some
      { mt :=
          (if a.i + 1 ≥ NN then
            fun w : List Nat => w.set 0 (w.getD (NN - 1) 0)
          else fun w => w)
          (a.mt.set a.i (sub64 (a.mt.getD a.i 0 ^^^
            mul64 (a.mt.getD (a.i - 1) 0 ^^^ (a.mt.getD (a.i - 1) 0 >>> 62))
              2862933555777941757) a.i)),
        i := if a.i + 1 ≥ NN then 1 else a.i + 1,
        j := a.j } := by
  have hN : NN = 312 := rfl
  unfold init_by_array64_body2
  rw [rd_eq a.mt a.i a.i rfl (by omega), rd_eq a.mt ((a.i : Int) - 1) (a.i - 1) (by omega) (by omega)]
  simp only [Option.bind_eq_bind, Option.some_bind]
  rw [wr_eq a.mt a.i a.i _ rfl (by omega)]
  simp only [Option.some_bind]
  have hmod : (a.i + 1) % 2 ^ 32 = a.i + 1 := by
    apply Nat.mod_eq_of_lt; norm_num; omega
  rw [hmod]
  by_cases hw : a.i + 1 ≥ NN
  · rw [if_pos hw, if_pos hw, if_pos hw]
    rw [rd_eq _ ((NN : Int) - 1) (NN - 1) (by omega) (by simp; omega)]
    simp only [Option.some_bind]
    rw [wr_eq _ 0 0 _ rfl (by simp; omega)]
    rfl
  · rw [if_neg hw, if_neg hw, if_neg hw]

theorem xor_mod_two_pow (a b n : Nat) :
    (a ^^^ b) % 2 ^ n = (a % 2 ^ n) ^^^ (b % 2 ^ n) := by
  apply Nat.eq_of_testBit_eq
  intro i
  simp only [Nat.testBit_mod_two_pow, Nat.testBit_xor]
  by_cases h : i < n <;> simp [h]

theorem xor_mul64_mod (w x b : Nat) :
    (w ^^^ mul64 x b) % 2 ^ 64 = (w ^^^ (x * b)) % 2 ^ 64 := by
  unfold mul64
  rw [xor_mod_two_pow, xor_mod_two_pow w (x * b), Nat.mod_mod]

theorem mix_val_eq (w x key j : Nat) :
    add64 (add64 (w ^^^ mul64 x 3935559000370003845) key) j
      = ((w ^^^ (x * 3935559000370003845)) + key + j) % 2 ^ 64 := by
  have h := xor_mul64_mod w x 3935559000370003845
  unfold add64
  norm_num at h ⊢
  omega

theorem fin_val_eq (w x i : Nat) :
    sub64 (w ^^^ mul64 x 2862933555777941757) i
      = ((((w ^^^ (x * 2862933555777941757) : Nat) : Int) - (i : Int)) % 2 ^ 64).toNat := by
  have h := xor_mul64_mod w x 2862933555777941757
  unfold sub64
  norm_num at h ⊢
  omega

theorem succ_mod_wrap (t L : Nat) (hL : 0 < L) :
    (t + 1) % L = if t % L + 1 ≥ L then 0 else t % L + 1 := by
  have hlt : t % L < L := Nat.mod_lt t hL
  rw [Nat.add_mod]
  by_cases h : t % L + 1 ≥ L
  · have h1 : t % L + 1 = L := by omega
    rw [if_pos h]
    by_cases hL1 : L = 1
    · subst hL1; simp [Nat.mod_one]
    · have : 1 % L = 1 := Nat.mod_eq_of_lt (by omega)
      rw [this, h1, Nat.mod_self]
  · rw [if_neg h]
    have h1 : 1 % L = 1 := Nat.mod_eq_of_lt (by omega)
    rw [h1]
    exact Nat.mod_eq_of_lt (by omega)

/-- One iteration of the first loop of `init_by_array64` is one key-mixing
step of the specification. -/
theorem init_by_array64_body1_sim (keys : List Nat) (t : Nat) (a : ArrSt)
    (hl : a.mt.length = NN) (hL1 : 0 < keys.length) (hL2 : keys.length < 2 ^ 32)
    (hi : a.i = 1 + t % 311) (hj : a.j = t % keys.length) :
    ∃ a', init_by_array64_body1 keys keys.length t a = some a' ∧
      a'.mt = spec_mix_step keys t a.mt ∧ a'.mt.length = NN ∧
      a'.i = 1 + (t + 1) % 311 ∧ a'.j = (t + 1) % keys.length := by
  have hN : NN = 312 := rfl
  have hjlt : a.j < keys.length := by rw [hj]; exact Nat.mod_lt t hL1
  refine ⟨_, init_by_array64_body1_eq keys keys.length t a hl (by omega) (by omega) hjlt, ?_, ?_, ?_, ?_⟩
  · simp only [spec_mix_step, mix_val_eq, ← hi, ← hj]
    by_cases hw : a.i + 1 ≥ NN
    · have : a.i = 311 := by omega
      rw [if_pos hw, if_pos this, hN]
    · have : ¬ a.i = 311 := by omega
      rw [if_neg hw, if_neg this]
  · simp only []
    split <;> simp [hl]
  · simp only []
    split <;> omega
  · simp only []
    have hm : (a.j + 1) % 2 ^ 32 = a.j + 1 := by
      apply Nat.mod_eq_of_lt; omega
    rw [hm, succ_mod_wrap t keys.length hL1, ← hj]

/-- One iteration of the second loop of `init_by_array64` is one step of the
second pass of the specification. -/
theorem init_by_array64_body2_sim (t u : Nat) (a : ArrSt)
    (hl : a.mt.length = NN) (hi : a.i = 1 + t % 311) :
    ∃ a', init_by_array64_body2 u a = some a' ∧
      a'.mt = spec_fin_step t a.mt ∧ a'.mt.length = NN ∧
      a'.i = 1 + (t + 1) % 311 ∧ a'.j = a.j := by
  have hN : NN = 312 := rfl
  refine ⟨_, init_by_array64_body2_eq u a hl (by omega) (by omega), ?_, ?_, ?_, rfl⟩
  · simp only [spec_fin_step, fin_val_eq, ← hi]
    by_cases hw : a.i + 1 ≥ NN
    · have : a.i = 311 := by omega
      rw [if_pos hw, if_pos this, hN]
    · have : ¬ a.i = 311 := by omega
      rw [if_neg hw, if_neg this]
  · simp only []
    split <;> simp [hl]
  · simp only []
    split <;> omega

/-- One iteration of the first loop of `init_by_array64` keeps the indices in
range, for a key array of any positive length. -/
theorem init_by_array64_body1_inv (keys : List Nat) (t : Nat) (a : ArrSt)
    (hl : a.mt.length = NN) (hi1 : 1 ≤ a.i) (hi2 : a.i < NN) (hj : a.j < keys.length) :
    ∃ a', init_by_array64_body1 keys keys.length t a = some a' ∧
      a'.mt.length = NN ∧ 1 ≤ a'.i ∧ a'.i < NN ∧ a'.j < keys.length := by
  have hN : NN = 312 := rfl
  refine ⟨_, init_by_array64_body1_eq keys keys.length t a hl hi1 hi2 hj, ?_, ?_, ?_, ?_⟩
  · simp only []
    split <;> simp [hl]
  · simp only []
    split <;> omega
  · simp only []
    split <;> omega
  · simp only []
    split <;> omega

/-- The result of `init_by_array64` does not depend on the prior state. -/
theorem init_by_array64_indep (s1 s2 : mt64_t) (keys : List Nat) (key_len : Nat)
    (h1 : s1.mt.length = NN) (h2 : s2.mt.length = NN) :
    init_by_array64 s1 keys key_len = init_by_array64 s2 keys key_len := by
  simp only [init_by_array64]
  rw [init_genrand64_indep s1 s2 19650218 h1 h2]

/-- Postcondition of `init_by_array64` for a non-empty key array. -/
theorem init_by_array64_post (s : mt64_t) (keys : List Nat)
    (hl : s.mt.length = NN) (hk : 0 < keys.length) :
    ∃ s', init_by_array64 s keys keys.length = some s' ∧ s'.mt.length = NN ∧
      s'.mt.getD 0 0 = 2 ^ 63 ∧ s'.mti = NN ∧ s'.initialized = true := by
  have hN : NN = 312 := rfl
  obtain ⟨s0, hs0, hl0, _, _, hm0, _⟩ := init_genrand64_post s 19650218 hl
  let k := if NN > keys.length then NN else keys.length
  obtain ⟨a1, ha1, hinv1⟩ := forLoop_inv (init_by_array64_body1 keys keys.length)
    (fun _ (a : ArrSt) => a.mt.length = NN ∧ 1 ≤ a.i ∧ a.i < NN ∧ a.j < keys.length) k
    (by
      intro i a _ ⟨h1, h2, h3, h4⟩
      exact init_by_array64_body1_inv keys i a h1 h2 h3 h4)
    k 0 { mt := s0.mt, i := 1, j := 0 } (by omega) ⟨hl0, by simp, by simp [hN], hk⟩
  obtain ⟨hla1, hi1, hi2, _⟩ := hinv1
  obtain ⟨a2, ha2, hinv2⟩ := forLoop_inv init_by_array64_body2
    (fun _ (a : ArrSt) => a.mt.length = NN ∧ 1 ≤ a.i ∧ a.i < NN) (NN - 1)
    (by
      intro i a _ ⟨h1, h2, h3⟩
      refine ⟨_, init_by_array64_body2_eq i a h1 h2 h3, ?_, ?_, ?_⟩
      · simp only []
        split <;> simp [h1]
      · simp only []
        split <;> omega
      · simp only []
        split <;> omega)
    (NN - 1) 0 a1 (by omega) ⟨hla1, hi1, hi2⟩
  obtain ⟨hla2, _, _⟩ := hinv2
  have hw : wr a2.mt 0 (shl64 1 63) = some (a2.mt.set 0 (shl64 1 63)) :=
    wr_eq a2.mt 0 0 _ rfl (by omega)
  refine ⟨{ s0 with mt := a2.mt.set 0 (shl64 1 63), initialized := true }, ?_, ?_, ?_, hm0, rfl⟩
  · simp only [init_by_array64, hs0, Option.bind_eq_bind, Option.some_bind]
    rw [show (if NN > keys.length then NN else keys.length) = k from rfl, ha1]
    simp only [Option.some_bind]
    rw [ha2]
    simp only [Option.some_bind]
    rw [hw]
    rfl
  · simp [hla2]
  · simp only []
    rw [getD_set_eq _ _ _ (by omega)]
    simp [shl64, Nat.shiftLeft_eq]

/-- Refinement: `init_by_array64` computes the array seeding of the
specification, for a non-empty key array of length below `2^32`. -/
theorem init_by_array64_refines (s : mt64_t) (keys : List Nat)
    (hl : s.mt.length = NN) (hk : 0 < keys.length) (hk2 : keys.length < 2 ^ 32) :
    init_by_array64 s keys keys.length = spec_init_by_array64 s keys := by
  have hN : NN = 312 := rfl
  obtain ⟨s0, hs0, hl0, _, _, hm0, hi0⟩ := init_genrand64_post s 19650218 hl
  have hk' : (if NN > keys.length then NN else keys.length) = max 312 keys.length := by
    rw [hN]; split <;> omega
  obtain ⟨a1, ha1, hinv1⟩ := forLoop_inv (init_by_array64_body1 keys keys.length)
    (fun t (a : ArrSt) => a.mt = spec_iter (spec_mix_step keys) 0 t s0.mt ∧ a.mt.length = NN ∧
      a.i = 1 + t % 311 ∧ a.j = t % keys.length) (max 312 keys.length)
    (by
      intro t a _ ⟨h1, h2, h3, h4⟩
      obtain ⟨a', e, e1, e2, e3, e4⟩ := init_by_array64_body1_sim keys t a h2 hk hk2 h3 h4
      refine ⟨a', e, ?_, e2, e3, e4⟩
      rw [e1, h1]
      simp [spec_iter])
    (max 312 keys.length) 0 { mt := s0.mt, i := 1, j := 0 } (by omega)
    ⟨rfl, hl0, by simp, by simp⟩
  obtain ⟨hmt1, hla1, hi1, _⟩ := hinv1
  obtain ⟨a2, ha2, hinv2⟩ := forLoop_inv init_by_array64_body2
    (fun u (a : ArrSt) => a.mt = spec_iter spec_fin_step (max 312 keys.length) u a1.mt ∧
      a.mt.length = NN ∧ a.i = 1 + (max 312 keys.length + u) % 311) (NN - 1)
    (by
      intro u a _ ⟨h1, h2, h3⟩
      obtain ⟨a', e, e1, e2, e3, _⟩ :=
        init_by_array64_body2_sim (max 312 keys.length + u) u a h2 h3
      refine ⟨a', e, ?_, e2, ?_⟩
      · rw [e1, h1]
        simp [spec_iter]
      · rw [e3]; rfl)
    (NN - 1) 0 a1 (by omega) ⟨rfl, hla1, by simpa using hi1⟩
  obtain ⟨hmt2, hla2, _⟩ := hinv2
  have hw : wr a2.mt 0 (shl64 1 63) = some (a2.mt.set 0 (shl64 1 63)) :=
    wr_eq a2.mt 0 0 _ rfl (by omega)
  simp only [init_by_array64, spec_init_by_array64, hs0, Option.bind_eq_bind, Option.some_bind,
    Option.map_some']
  rw [hk', ha1]
  simp only [Option.some_bind]
  rw [ha2]
  simp only [Option.some_bind]
  rw [hw]
  simp only [Option.some_bind]
  rw [hmt2, hmt1]
  have h63 : shl64 1 63 = 2 ^ 63 := by simp [shl64, Nat.shiftLeft_eq]
  have : 0 + (NN - 1) = 311 := by rw [hN]
  rw [h63, this]
  cases s0
  simp only [mt64_t.mk.injEq] at *
  simp [hi0]

/-! ## The twist -/

theorem twist_val_eq (c : Macros) (a b m : Nat) :
    m ^^^ (((a &&& c.UM) ||| (b &&& c.LM)) >>> 1)
        ^^^ mag01 c (((a &&& c.UM) ||| (b &&& c.LM)) &&& 1)
      = spec_twist_word c a b m := by
  unfold spec_twist_word spec_x mag01
  rw [Nat.and_one_is_mod]
  by_cases h : ((a &&& c.UM) ||| (b &&& c.LM)) % 2 = 0
  · rw [if_pos h, if_neg (by omega)]
  · rw [if_neg h, if_pos (by omega)]

theorem twist_body1_eq (c : Macros) (i : Nat) (mt : List Nat)
    (hl : mt.length = NN) (hi : i < NN - MM) :
    twist_body1 c i mt = some (mt.set i
      (spec_twist_word c (mt.getD i 0) (mt.getD (i + 1) 0) (mt.getD (i + MM) 0))) := by
  have hN : NN = 312 := rfl
  have hM : MM = 156 := rfl
  unfold twist_body1
  rw [rd_eq mt i i rfl (by omega), rd_eq mt ((i : Int) + 1) (i + 1) (by omega) (by omega),
    rd_eq mt ((i : Int) + MM) (i + MM) (by omega) (by omega)]
  simp only [Option.bind_eq_bind, Option.some_bind]
  rw [wr_eq mt i i _ rfl (by omega), twist_val_eq]

theorem twist_body2_eq (c : Macros) (i : Nat) (mt : List Nat)
    (hl : mt.length = NN) (hi1 : NN - MM ≤ i) (hi2 : i < NN - 1) :
    twist_body2 c i mt = some (mt.set i
      (spec_twist_word c (mt.getD i 0) (mt.getD (i + 1) 0) (mt.getD (i - 156) 0))) := by
  have hN : NN = 312 := rfl
  have hM : MM = 156 := rfl
  unfold twist_body2
  rw [rd_eq mt i i rfl (by omega), rd_eq mt ((i : Int) + 1) (i + 1) (by omega) (by omega),
    rd_eq mt ((i : Int) + ((MM : Int) - NN)) (i - 156) (by omega) (by omega)]
  simp only [Option.bind_eq_bind, Option.some_bind]
  rw [wr_eq mt i i _ rfl (by omega), twist_val_eq]

/-- The three ranges of the twist compute the in-place recurrence. -/
theorem twist_words_post (c : Macros) (old : List Nat) (hl : old.length = NN) :
    ∃ new, twist_words c old = some new ∧ new.length = NN ∧
      (∀ i, i < 156 → new.getD i 0
        = spec_twist_word c (old.getD i 0) (old.getD (i + 1) 0) (old.getD (i + 156) 0)) ∧
      (∀ i, 156 ≤ i → i < 311 → new.getD i 0
        = spec_twist_word c (old.getD i 0) (old.getD (i + 1) 0) (new.getD (i - 156) 0)) ∧
      new.getD 311 0
        = spec_twist_word c (old.getD 311 0) (new.getD 0 0) (new.getD 155 0) := by
  have hN : NN = 312 := rfl
  have hM : MM = 156 := rfl
  obtain ⟨mid, hmid, hlm, hm1, hm2⟩ := forLoop_inv (twist_body1 c)
    (fun i (mt : List Nat) => mt.length = NN ∧
      (∀ j, j < i → mt.getD j 0
        = spec_twist_word c (old.getD j 0) (old.getD (j + 1) 0) (old.getD (j + 156) 0)) ∧
      (∀ j, i ≤ j → mt.getD j 0 = old.getD j 0)) (NN - MM)
    (by
      intro i mt hi ⟨h1, h2, h3⟩
      refine ⟨_, twist_body1_eq c i mt h1 hi, by simp [h1], ?_, ?_⟩
      · intro j hj
        by_cases hji : j = i
        · subst hji
          rw [getD_set_eq _ _ _ (by omega), h3 j (by omega), h3 (j + 1) (by omega),
            hM, h3 (j + 156) (by omega)]
        · rw [getD_set_ne _ _ _ _ (by omega)]
          exact h2 j (by omega)
      · intro j hj
        rw [getD_set_ne _ _ _ _ (by omega)]
        exact h3 j (by omega))
    (NN - MM) 0 old (by omega) ⟨hl, by intro j hj; omega, by intro j _; rfl⟩
  obtain ⟨fin, hfin, _, hlf, hf1, hf2⟩ := forLoop_inv (twist_body2 c)
    (fun i (mt : List Nat) => NN - MM ≤ i ∧ mt.length = NN ∧
      (∀ j, j < 156 ∨ i ≤ j → mt.getD j 0 = mid.getD j 0) ∧
      (∀ j, 156 ≤ j → j < i → mt.getD j 0
        = spec_twist_word c (mid.getD j 0) (mid.getD (j + 1) 0) (mid.getD (j - 156) 0)))
    (NN - 1)
    (by
      intro i mt hi ⟨hi1, h1, h2, h3⟩
      refine ⟨_, twist_body2_eq c i mt h1 hi1 hi, by omega, by simp [h1], ?_, ?_⟩
      · intro j hj
        rw [getD_set_ne _ _ _ _ (by omega)]
        exact h2 j (by omega)
      · intro j hj1 hj2
        by_cases hji : j = i
        · subst hji
          rw [getD_set_eq _ _ _ (by omega), h2 j (by omega), h2 (j + 1) (by omega),
            h2 (j - 156) (by omega)]
        · rw [getD_set_ne _ _ _ _ (by omega)]
          exact h3 j hj1 (by omega))
    ((NN - 1) - (NN - MM)) (NN - MM) mid (by omega)
    ⟨by omega, hlm, by intro j _; rfl, by intro j h1 h2; omega⟩
  have e311 : NN - MM + (NN - 1 - (NN - MM)) = 311 := by omega
  rw [e311] at hf1 hf2
  have hlast : twist_words c old = some (fin.set 311
      (spec_twist_word c (fin.getD 311 0) (fin.getD 0 0) (fin.getD 155 0))) := by
    unfold twist_words
    rw [hmid]
    simp only [Option.bind_eq_bind, Option.some_bind]
    rw [hfin]
    simp only [Option.some_bind]
    rw [rd_eq fin ((NN : Int) - 1) 311 (by omega) (by omega), rd_eq fin 0 0 rfl (by omega),
      rd_eq fin ((MM : Int) - 1) 155 (by omega) (by omega)]
    simp only [Option.some_bind]
    rw [wr_eq fin ((NN : Int) - 1) 311 _ (by omega) (by omega), twist_val_eq]
  refine ⟨_, hlast, by simp [hlf], ?_, ?_, ?_⟩
  · intro i hi
    rw [getD_set_ne _ _ _ _ (by omega), hf1 i (by omega)]
    exact hm1 i (by omega)
  · intro i hi1 hi2
    rw [getD_set_ne _ _ _ _ (by omega), getD_set_ne _ _ _ _ (by omega), hf2 i hi1 hi2,
      hf1 (i - 156) (by omega), hm2 i (by omega), hm2 (i + 1) (by omega)]
  · rw [getD_set_eq _ _ _ (by omega), getD_set_ne _ _ _ _ (by omega),
      getD_set_ne _ _ _ _ (by omega), hf1 311 (by omega), hm2 311 (by omega)]

/-! ## `genrand64_int64` -/

/-- A call with the cursor inside the batch reads one word and moves the
cursor. -/
theorem genrand64_int64_read (c : Macros) (s : mt64_t)
    (h0 : 0 ≤ s.mti) (h1 : s.mti < NN) (hl : s.mt.length = NN) :
    genrand64_int64 c s
      = some (temper (s.mt.getD s.mti.toNat 0), { s with mti := s.mti + 1 }) := by
  unfold genrand64_int64
  rw [if_neg (by omega)]
  simp only [Option.bind_eq_bind, Option.some_bind]
  rw [rd_eq s.mt s.mti s.mti.toNat (by omega) (by omega)]
  rfl

/-- The words the twist starts from: the words of the state, or those of
`init_genrand64` with seed 5489 when the state is not initialized. -/
theorem twist_eq (c : Macros) (s : mt64_t) (hl : s.mt.length = NN) :
    ∃ old new, (if s.initialized then some s.mt
        else (init_genrand64 s 5489).map fun t => t.mt) = some old ∧
      old.length = NN ∧ twist_words c old = some new ∧
      twist c s = some { mt := new, mti := 0, initialized := true } := by
  cases hi : s.initialized
  · obtain ⟨s0, hs0, hl0, _, _, _, hi0⟩ := init_genrand64_post s 5489 hl
    obtain ⟨new, hnew, _⟩ := twist_words_post c s0.mt hl0
    refine ⟨s0.mt, new, by simp [hs0], hl0, hnew, ?_⟩
    simp [twist, hi, hs0, hnew, hi0]
  · obtain ⟨new, hnew, _⟩ := twist_words_post c s.mt hl
    refine ⟨s.mt, new, by simp, hl, hnew, ?_⟩
    simp [twist, hi, hnew]

/-- A call with the batch exhausted twists, then reads word 0. -/
theorem genrand64_int64_twist (c : Macros) (s : mt64_t)
    (hm : s.mti ≥ NN) (hl : s.mt.length = NN) :
    ∃ old new, (if s.initialized then some s.mt
        else (init_genrand64 s 5489).map fun t => t.mt) = some old ∧
      old.length = NN ∧ twist_words c old = some new ∧ new.length = NN ∧
      genrand64_int64 c s
        = some (temper (new.getD 0 0), { mt := new, mti := 1, initialized := true }) := by
  have hN : NN = 312 := rfl
  obtain ⟨old, new, hold, hlo, hnew, htw⟩ := twist_eq c s hl
  obtain ⟨new', hnew', hln, _⟩ := twist_words_post c old hlo
  have : new' = new := by rw [hnew] at hnew'; exact (Option.some.inj hnew').symm
  subst this
  refine ⟨old, new', hold, hlo, hnew, hln, ?_⟩
  unfold genrand64_int64
  rw [if_pos hm, htw]
  simp only [Option.bind_eq_bind, Option.some_bind]
  rw [rd_eq new' 0 0 rfl (by omega)]
  rfl

/-- Every call on a state with `NN` words and a non-negative cursor returns,
and leaves such a state, with the cursor in `[1, NN]`. -/
theorem genrand64_int64_total (c : Macros) (s : mt64_t)
    (h0 : 0 ≤ s.mti) (hl : s.mt.length = NN) :
    ∃ x s', genrand64_int64 c s = some (x, s') ∧ s'.mt.length = NN ∧
      s'.mti = (if s.mti ≥ NN then 1 else s.mti + 1) ∧
      (s.mti < NN → s'.mt = s.mt ∧ s'.initialized = s.initialized) := by
  by_cases hm : s.mti ≥ NN
  · obtain ⟨old, new, _, _, _, hln, h⟩ := genrand64_int64_twist c s hm hl
    refine ⟨_, _, h, hln, by rw [if_pos hm], ?_⟩
    intro h'; omega
  · refine ⟨_, _, genrand64_int64_read c s h0 (by omega) hl, hl, by rw [if_neg hm], ?_⟩
    intro _; exact ⟨rfl, rfl⟩

/-- Any number of consecutive calls returns that many values. -/
theorem genrand64_int64_outputs_total (c : Macros) (n : Nat) :
    ∀ s : mt64_t, 0 ≤ s.mti → s.mt.length = NN →
      ∃ xs, genrand64_int64_outputs c n s = some xs ∧ xs.length = n := by
  have hN : NN = 312 := rfl
  induction n with
  | zero => intro s _ _; exact ⟨[], rfl, rfl⟩
  | succ n ih =>
    intro s h0 hl
    obtain ⟨x, s', hs', hl', hm', _⟩ := genrand64_int64_total c s h0 hl
    obtain ⟨xs, hxs, hlen⟩ := ih s' (by rw [hm']; split <;> omega) hl'
    refine ⟨x :: xs, ?_, by simp [hlen]⟩
    simp [genrand64_int64_outputs, hs', hxs]

/-- The cursor along consecutive calls on a state just seeded. -/
theorem genrand64_int64_state_cursor (c : Macros) (s : mt64_t)
    (hm : s.mti = NN) (hl : s.mt.length = NN) (k : Nat) :
    ∃ t, genrand64_int64_state c k s = some t ∧ t.mt.length = NN ∧
      t.mti = (if k = 0 then (NN : Int) else ((k - 1) % 312 : Nat) + 1) := by
  have hN : NN = 312 := rfl
  induction k with
  | zero => exact ⟨s, rfl, hl, by simp [hm]⟩
  | succ k ih =>
    obtain ⟨t, ht, hlt, hmt⟩ := ih
    obtain ⟨x, t', ht', hlt', hmt', _⟩ := genrand64_int64_total c t
      (by rw [hmt]; split <;> omega) hlt
    refine ⟨t', ?_, hlt', ?_⟩
    · simp [genrand64_int64_state, ht, ht']
    · rw [hmt', hmt]
      simp only [Nat.add_sub_cancel, Nat.succ_ne_zero, if_false]
      by_cases hk : k = 0
      · subst hk; simp [hN]
      · rw [if_neg hk]
        split <;> omega

theorem zeroState_length : zeroState.mt.length = NN := by
  simp [zeroState]

/-- The twist trigger along consecutive calls from a state with cursor `NN`. -/
theorem twist_boundary (c : Macros) (s : mt64_t) (hm : s.mti = NN) (hl : s.mt.length = NN)
    (k : Nat) (hk : 1 ≤ k) :
    ∃ pre x post, genrand64_int64_state c (k - 1) s = some pre ∧
      genrand64_int64 c pre = some (x, post) ∧
      (pre.mti ≥ NN ↔ k % 312 = 1) ∧
      post.mti = ((k - 1) % 312 : Nat) + 1 ∧
      (¬ pre.mti ≥ NN → post.mt = pre.mt) := by
  have hN : NN = 312 := rfl
  obtain ⟨pre, hpre, hlp, hmp⟩ := genrand64_int64_state_cursor c s hm hl (k - 1)
  obtain ⟨x, post, hpost, _, hmpost, hkeep⟩ := genrand64_int64_total c pre
    (by rw [hmp]; split <;> omega) hlp
  refine ⟨pre, x, post, hpre, hpost, ?_, ?_, ?_⟩
  · rw [hmp]
    by_cases hk1 : k - 1 = 0
    · rw [if_pos hk1]
      have : k = 1 := by omega
      subst this
      simp
    · rw [if_neg hk1]
      constructor
      · intro h; omega
      · intro h; omega
  · rw [hmpost, hmp]
    by_cases hk1 : k - 1 = 0
    · rw [if_pos hk1]
      have : k = 1 := by omega
      subst this
      simp
    · rw [if_neg hk1]
      split <;> omega
  · intro h
    exact (hkeep (by omega)).1

/-- On a state that is not initialized and has its batch exhausted, a call
behaves as on the state seeded with 5489. -/
theorem genrand64_int64_lazy_seed (c : Macros) (s : mt64_t)
    (hi : s.initialized = false) (hm : s.mti ≥ NN) (hl : s.mt.length = NN) :
    genrand64_int64 c s = (init_genrand64 s 5489).bind (genrand64_int64 c) := by
  obtain ⟨s0, hs0, hl0, _, _, hm0, hi0⟩ := init_genrand64_post s 5489 hl
  have e : twist c s = twist c s0 := by
    simp [twist, hi, hs0, hi0]
  rw [hs0]
  simp only [Option.some_bind]
  unfold genrand64_int64
  rw [if_pos hm, if_pos (by omega), e]

/-! ## Word-by-word form of the seedings -/

theorem init_genrand64_words (s : mt64_t) (seed : Nat) (hl : s.mt.length = NN) :
    ∃ s', init_genrand64 s seed = some s' ∧ s'.mt.length = NN ∧
      (∀ i, i < NN → s'.mt.getD i 0 = seedWord seed i) ∧
      s'.mti = NN ∧ s'.initialized = true := by
  obtain ⟨s', h, hl', hz, hr, hm, hi⟩ := init_genrand64_post s seed hl
  refine ⟨s', h, hl', ?_, hm, hi⟩
  intro i
  induction i with
  | zero => intro _; rw [hz]; rfl
  | succ n ih =>
    intro hn
    have e := ih (by omega)
    have := hr (n + 1) (by omega) hn
    simp only [Nat.add_sub_cancel] at this
    rw [this, e]
    rfl

theorem getD_step (mt : List Nat) (i v j : Nat) (hl : mt.length = NN)
    (hi1 : 1 ≤ i) (hi2 : i < NN) :
    ((if i + 1 ≥ NN then fun w : List Nat => w.set 0 (w.getD (NN - 1) 0) else fun w => w)
        (mt.set i v)).getD j 0
      = if j = i then v else if j = 0 ∧ i = 311 then v else mt.getD j 0 := by
  have hN : NN = 312 := rfl
  by_cases hw : i + 1 ≥ NN
  · have hi : i = 311 := by omega
    subst hi
    rw [if_pos hw]
    simp only [hN]
    rw [getD_set_eq _ _ _ (by omega)]
    by_cases hj : j = 311
    · subst hj
      rw [getD_set_ne _ _ _ _ (by omega), getD_set_eq _ _ _ (by omega), if_pos rfl]
    · rw [if_neg hj]
      by_cases hj0 : j = 0
      · subst hj0
        rw [getD_set_eq _ _ _ (by simp; omega)]
        simp
      · rw [getD_set_ne _ _ _ _ (by omega), getD_set_ne _ _ _ _ (by omega), if_neg (by omega)]
  · rw [if_neg hw]
    by_cases hj : j = i
    · subst hj
      rw [getD_set_eq _ _ _ (by omega), if_pos rfl]
    · rw [getD_set_ne _ _ _ _ (by omega), if_neg hj, if_neg (by omega)]

theorem arr1_prev (keys : List Nat) (t : Nat) (ht : t < 311) :
    arr1 keys t t = mixWord keys t := by
  unfold arr1
  by_cases h0 : t = 0
  · subst h0; rfl
  · rw [if_neg h0, if_neg (by omega), if_pos (Nat.le_refl t)]

theorem arr1_next (keys : List Nat) (t : Nat) (ht : t < 311) :
    arr1 keys t (t + 1) = seedWord 19650218 (t + 1) := by
  unfold arr1
  rw [if_neg (by omega), if_neg (by omega), if_neg (by omega)]

/-- One iteration of the first loop of `init_by_array64`, word by word, for a
key array of length at most `NN`. -/
theorem init_by_array64_body1_words (keys : List Nat) (t : Nat) (a : ArrSt)
    (hL : 0 < keys.length) (hL2 : keys.length ≤ NN) (ht : t < 312)
    (hl : a.mt.length = NN) (hi : a.i = if t < 311 then t + 1 else t - 310)
    (hj : a.j = t % keys.length)
    (hw : ∀ j, j < 312 → a.mt.getD j 0 = arr1 keys t j) :
    ∃ a', init_by_array64_body1 keys keys.length t a = some a' ∧ a'.mt.length = NN ∧
      a'.i = (if t + 1 < 311 then t + 1 + 1 else t + 1 - 310) ∧
      a'.j = (t + 1) % keys.length ∧
      ∀ j, j < 312 → a'.mt.getD j 0 = arr1 keys (t + 1) j := by
  have hN : NN = 312 := rfl
  have hjlt : a.j < keys.length := by rw [hj]; exact Nat.mod_lt t hL
  have hi1 : 1 ≤ a.i := by rw [hi]; split <;> omega
  have hi2 : a.i < NN := by rw [hi]; split <;> omega
  refine ⟨_, init_by_array64_body1_eq keys keys.length t a hl hi1 hi2 hjlt, ?_, ?_, ?_, ?_⟩
  · simp only []
    split <;> simp [hl]
  · simp only []
    rw [hi]
    split <;> split <;> split <;> omega
  · simp only []
    have hm : (a.j + 1) % 2 ^ 32 = a.j + 1 := by
      apply Nat.mod_eq_of_lt; norm_num; omega
    rw [hm, succ_mod_wrap t keys.length hL, ← hj]
  · intro j hjlt'
    simp only []
    rw [getD_step _ _ _ _ hl hi1 hi2]
    by_cases h311 : t < 311
    · have hia : a.i = t + 1 := by rw [hi, if_pos h311]
      have hv : add64 (add64 (a.mt.getD a.i 0 ^^^
            mul64 (a.mt.getD (a.i - 1) 0 ^^^ (a.mt.getD (a.i - 1) 0 >>> 62))
              3935559000370003845) (keys.getD a.j 0)) a.j = mixWord keys (t + 1) := by
        rw [hia, Nat.add_sub_cancel, hw (t + 1) (by omega), hw t (by omega),
          arr1_prev keys t h311, arr1_next keys t h311, hj, mixWord]
      rw [hv, hia]
      have hwj := hw j hjlt'
      unfold arr1 at hwj ⊢
      split_ifs at hwj ⊢ <;>
        first
        | (exfalso; omega)
        | (with_reducible rfl)
        | (with_reducible exact hwj)
        | (with_reducible congr 1; omega)
    · have ht311 : t = 311 := by omega
      subst ht311
      have hia : a.i = 1 := by rw [hi]; rfl
      have hv : add64 (add64 (a.mt.getD a.i 0 ^^^
            mul64 (a.mt.getD (a.i - 1) 0 ^^^ (a.mt.getD (a.i - 1) 0 >>> 62))
              3935559000370003845) (keys.getD a.j 0)) a.j = mixWord1 keys := by
        have e1 : arr1 keys 311 1 = mixWord keys 1 := by
          unfold arr1
          rw [if_neg (by omega), if_neg (by omega), if_pos (by omega)]
        have e0 : arr1 keys 311 0 = mixWord keys 311 := by
          unfold arr1
          rw [if_pos rfl, if_pos (by omega)]
        rw [hia, hw 1 (by omega), hw 0 (by omega), hj, e1, e0, mixWord1]
      rw [hv, hia]
      have hwj := hw j hjlt'
      unfold arr1 at hwj ⊢
      split_ifs at hwj ⊢ <;>
        first
        | (exfalso; omega)
        | (with_reducible rfl)
        | (with_reducible exact hwj)

theorem finWord_one (keys : List Nat) : finWord keys 1 = mixWord1 keys := by
  rw [finWord, if_pos rfl]

theorem finWord_succ (keys : List Nat) (n : Nat) (hn : n ≠ 0) :
    finWord keys (n + 1) = sub64 (mixWord keys (n + 1) ^^^
      mul64 (finWord keys n ^^^ (finWord keys n >>> 62)) 2862933555777941757) (n + 1) := by
  rw [finWord, if_neg hn]

theorem arr2_prev (keys : List Nat) (u : Nat) (hu : u < 310) :
    arr2 keys u (u + 1) = finWord keys (u + 1) := by
  unfold arr2
  by_cases h0 : u = 0
  · subst h0
    rw [if_neg (by omega), if_pos rfl, if_neg (by omega), finWord_one]
  · rw [if_neg (by omega), if_neg (by omega), if_pos (Nat.le_refl _)]

theorem arr2_next (keys : List Nat) (u : Nat) :
    arr2 keys u (u + 2) = mixWord keys (u + 2) := by
  unfold arr2
  rw [if_neg (by omega), if_neg (by omega), if_neg (by omega)]

/-- One iteration of the second loop of `init_by_array64`, word by word. -/
theorem init_by_array64_body2_words (keys : List Nat) (u : Nat) (a : ArrSt)
    (hu : u < 311) (hl : a.mt.length = NN)
    (hi : a.i = if u < 310 then u + 2 else u - 309)
    (hw : ∀ j, j < 312 → a.mt.getD j 0 = arr2 keys u j) :
    ∃ a', init_by_array64_body2 u a = some a' ∧ a'.mt.length = NN ∧
      a'.i = (if u + 1 < 310 then u + 1 + 2 else u + 1 - 309) ∧
      ∀ j, j < 312 → a'.mt.getD j 0 = arr2 keys (u + 1) j := by
  have hN : NN = 312 := rfl
  have hi1 : 1 ≤ a.i := by rw [hi]; split <;> omega
  have hi2 : a.i < NN := by rw [hi]; split <;> omega
  refine ⟨_, init_by_array64_body2_eq u a hl hi1 hi2, ?_, ?_, ?_⟩
  · simp only []
    split <;> simp [hl]
  · simp only []
    rw [hi]
    split <;> split <;> split <;> omega
  · intro j hjlt'
    simp only []
    rw [getD_step _ _ _ _ hl hi1 hi2]
    by_cases h310 : u < 310
    · have hia : a.i = u + 2 := by rw [hi, if_pos h310]
      have hv : sub64 (a.mt.getD a.i 0 ^^^
            mul64 (a.mt.getD (a.i - 1) 0 ^^^ (a.mt.getD (a.i - 1) 0 >>> 62))
              2862933555777941757) a.i = finWord keys (u + 2) := by
        rw [hia, show u + 2 - 1 = u + 1 from rfl, hw (u + 2) (by omega), hw (u + 1) (by omega),
          arr2_prev keys u h310, arr2_next keys u, finWord_succ keys (u + 1) (by omega)]
      rw [hv, hia]
      have hwj := hw j hjlt'
      unfold arr2 at hwj ⊢
      split_ifs at hwj ⊢ <;>
        first
        | (exfalso; omega)
        | (with_reducible rfl)
        | (with_reducible exact hwj)
        | (with_reducible congr 1; omega)
    · have hu310 : u = 310 := by omega
      subst hu310
      have hia : a.i = 1 := by rw [hi]; rfl
      have hv : sub64 (a.mt.getD a.i 0 ^^^
            mul64 (a.mt.getD (a.i - 1) 0 ^^^ (a.mt.getD (a.i - 1) 0 >>> 62))
              2862933555777941757) a.i = finWord1 keys := by
        have e1 : arr2 keys 310 1 = mixWord1 keys := by
          unfold arr2
          rw [if_neg (by omega), if_pos rfl, if_neg (by omega)]
        have e0 : arr2 keys 310 0 = finWord keys 311 := by
          unfold arr2
          rw [if_pos rfl, if_pos (by omega)]
        rw [hia, hw 1 (by omega), hw 0 (by omega), e1, e0, finWord1]
      rw [hv, hia]
      have hwj := hw j hjlt'
      unfold arr2 at hwj ⊢
      split_ifs at hwj ⊢ <;>
        first
        | (exfalso; omega)
        | (with_reducible rfl)
        | (with_reducible exact hwj)

/-- Word by word, the state `init_by_array64` leaves for a key array of
length between 1 and `NN`. -/
theorem init_by_array64_words (s : mt64_t) (keys : List Nat)
    (hl : s.mt.length = NN) (hL : 0 < keys.length) (hL2 : keys.length ≤ NN) :
    ∃ s', init_by_array64 s keys keys.length = some s' ∧ s'.mt.length = NN ∧
      s'.mti = NN ∧ s'.initialized = true ∧
      s'.mt.getD 0 0 = 2 ^ 63 ∧ s'.mt.getD 1 0 = finWord1 keys ∧
      ∀ j, 2 ≤ j → j < 312 → s'.mt.getD j 0 = finWord keys j := by
  have hN : NN = 312 := rfl
  obtain ⟨s0, hs0, hl0, hw0, hm0, _⟩ := init_genrand64_words s 19650218 hl
  have hk : (if NN > keys.length then NN else keys.length) = 312 := by
    split <;> omega
  obtain ⟨a1, ha1, hla1, hi1, _, hw1⟩ := forLoop_inv (init_by_array64_body1 keys keys.length)
    (fun t (a : ArrSt) => a.mt.length = NN ∧ a.i = (if t < 311 then t + 1 else t - 310) ∧
      a.j = t % keys.length ∧ ∀ j, j < 312 → a.mt.getD j 0 = arr1 keys t j) 312
    (by
      intro t a ht ⟨h1, h2, h3, h4⟩
      exact init_by_array64_body1_words keys t a hL hL2 ht h1 h2 h3 h4)
    312 0 { mt := s0.mt, i := 1, j := 0 } (by omega)
    ⟨hl0, rfl, by simp, by
      intro j hj
      simp only []
      rw [hw0 j (by omega)]
      unfold arr1
      by_cases hz : j = 0
      · subst hz
        rw [if_pos rfl, if_neg (by omega)]
      · rw [if_neg hz, if_neg (by omega), if_neg (by omega)]⟩
  obtain ⟨a2, ha2, hla2, _, hw2⟩ := forLoop_inv init_by_array64_body2
    (fun u (a : ArrSt) => a.mt.length = NN ∧ a.i = (if u < 310 then u + 2 else u - 309) ∧
      ∀ j, j < 312 → a.mt.getD j 0 = arr2 keys u j) 311
    (by
      intro u a hu ⟨h1, h2, h3⟩
      exact init_by_array64_body2_words keys u a hu h1 h2 h3)
    311 0 a1 (by omega)
    ⟨hla1, by rw [hi1]; rfl, by
      intro j hj
      rw [hw1 j hj]
      unfold arr1 arr2
      split_ifs <;>
        first
        | (exfalso; omega)
        | (with_reducible rfl)⟩
  have hw : wr a2.mt 0 (shl64 1 63) = some (a2.mt.set 0 (shl64 1 63)) :=
    wr_eq a2.mt 0 0 _ rfl (by omega)
  refine ⟨{ s0 with mt := a2.mt.set 0 (shl64 1 63), initialized := true }, ?_, ?_, hm0, rfl,
    ?_, ?_, ?_⟩
  · simp only [init_by_array64, hs0, Option.bind_eq_bind, Option.some_bind]
    rw [hk, ha1]
    simp only [Option.some_bind]
    rw [show NN - 1 = 311 from rfl, ha2]
    simp only [Option.some_bind]
    rw [hw]
    rfl
  · simp [hla2]
  · simp only []
    rw [getD_set_eq _ _ _ (by omega)]
    simp [shl64, Nat.shiftLeft_eq]
  · simp only []
    rw [getD_set_ne _ _ _ _ (by omega), hw2 1 (by omega)]
    unfold arr2
    rw [if_neg (by omega), if_pos rfl, if_pos (by omega)]
  · intro j hj1 hj2
    simp only []
    rw [getD_set_ne _ _ _ _ (by omega), hw2 j hj2]
    unfold arr2
    rw [if_neg (by omega), if_neg (by omega), if_pos (by omega)]

/-- The first value after seeding: the tempering of the first word of the
twist, which mixes words 0, 1 and 156 of the seeded state. -/
theorem genrand64_int64_first (c : Macros) (s : mt64_t)
    (hi : s.initialized = true) (hm : s.mti ≥ NN) (hl : s.mt.length = NN) :
    ∃ s2, genrand64_int64 c s = some (temper (spec_twist_word c (s.mt.getD 0 0)
      (s.mt.getD 1 0) (s.mt.getD 156 0)), s2) := by
  obtain ⟨old, new, hold, hlo, hnew, _, h⟩ := genrand64_int64_twist c s hm hl
  rw [hi] at hold
  simp only [if_true, Option.some.injEq] at hold
  subst hold
  obtain ⟨new', hnew', _, r1, _, _⟩ := twist_words_post c s.mt hlo
  have : new' = new := by rw [hnew] at hnew'; exact (Option.some.inj hnew').symm
  subst this
  refine ⟨{ mt := new', mti := 1, initialized := true }, ?_⟩
  rw [h, r1 0 (by omega)]

theorem seed5489_first_value :
    temper (spec_twist_word refMacros (seedWord 5489 0) (seedWord 5489 1) (seedWord 5489 156))
      = 14514284786278117030 := by
  decide!

/-! ## Raw values are 64-bit -/

theorem and_lt_left (a m : Nat) (h : a < 2 ^ 64) : a &&& m < 2 ^ 64 :=
  Nat.lt_of_le_of_lt Nat.and_le_left h

theorem shr_lt (a k : Nat) (h : a < 2 ^ 64) : a >>> k < 2 ^ 64 := by
  rw [Nat.shiftRight_eq_div_pow]
  exact Nat.lt_of_le_of_lt (Nat.div_le_self _ _) h

theorem shl64_lt (a k : Nat) : shl64 a k < 2 ^ 64 :=
  Nat.mod_lt _ (by norm_num)

theorem xor_shr_lt (y k m : Nat) (hy : y < 2 ^ 64) : y ^^^ ((y >>> k) &&& m) < 2 ^ 64 :=
  Nat.xor_lt_two_pow hy (and_lt_left _ m (shr_lt y k hy))

theorem xor_shl_lt (y k m : Nat) (hy : y < 2 ^ 64) : y ^^^ (shl64 y k &&& m) < 2 ^ 64 :=
  Nat.xor_lt_two_pow hy (and_lt_left _ m (shl64_lt y k))

theorem temper_lt (x : Nat) (h : x < 2 ^ 64) : temper x < 2 ^ 64 := by
  unfold temper
  dsimp only
  have h1 := xor_shr_lt x 29 0x5555555555555555 h
  have h2 := xor_shl_lt _ 17 0x71D67FFFEDA60000 h1
  have h3 := xor_shl_lt _ 37 0xFFF7EEE000000000 h2
  exact Nat.xor_lt_two_pow h3 (shr_lt _ 43 h3)

theorem spec_twist_word_lt (c : Macros) (a b m : Nat) (hA : c.MATRIX_A < 2 ^ 64)
    (ha : a < 2 ^ 64) (hb : b < 2 ^ 64) (hm : m < 2 ^ 64) :
    spec_twist_word c a b m < 2 ^ 64 := by
  unfold spec_twist_word spec_x
  have hx : (a &&& c.UM) ||| (b &&& c.LM) < 2 ^ 64 :=
    Nat.or_lt_two_pow (and_lt_left _ _ ha) (and_lt_left _ _ hb)
  refine Nat.xor_lt_two_pow (Nat.xor_lt_two_pow hm (shr_lt _ _ hx)) ?_
  split
  · exact hA
  · norm_num

theorem seedWord_lt (seed : Nat) (h : seed < 2 ^ 64) (i : Nat) : seedWord seed i < 2 ^ 64 := by
  cases i with
  | zero => exact h
  | succ n => rw [seedWord]; exact Nat.mod_lt _ (by norm_num)

/-- The value returned by `genrand64_int64` is below `2^64`, on a state of
64-bit words and for a 64-bit `MATRIX_A`. -/
theorem genrand64_int64_lt (c : Macros) (s : mt64_t) (hA : c.MATRIX_A < 2 ^ 64)
    (h0 : 0 ≤ s.mti) (hl : s.mt.length = NN) (hw : ∀ i, s.mt.getD i 0 < 2 ^ 64) :
    ∃ r s', genrand64_int64 c s = some (r, s') ∧ r < 2 ^ 64 := by
  by_cases hm : s.mti ≥ NN
  · obtain ⟨old, new, hold, hlo, hnew, _, h⟩ := genrand64_int64_twist c s hm hl
    obtain ⟨new', hnew', _, r1, _, _⟩ := twist_words_post c old hlo
    have : new' = new := by rw [hnew] at hnew'; exact (Option.some.inj hnew').symm
    subst this
    have hold' : ∀ i, old.getD i 0 < 2 ^ 64 := by
      cases hi : s.initialized
      · obtain ⟨s0, hs0, hl0, hw0, _, _⟩ := init_genrand64_words s 5489 hl
        rw [hi, hs0] at hold
        simp only [Bool.false_eq_true, if_false, Option.map_some', Option.some.injEq] at hold
        subst hold
        intro i
        by_cases hi' : i < NN
        · rw [hw0 i hi']; exact seedWord_lt _ (by norm_num) i
        · rw [List.getD_eq_default _ _ (by omega)]; norm_num
      · rw [hi] at hold
        simp only [if_true, Option.some.injEq] at hold
        subst hold
        exact hw
    refine ⟨_, _, h, temper_lt _ ?_⟩
    rw [r1 0 (by omega)]
    exact spec_twist_word_lt c _ _ _ hA (hold' _) (hold' _) (hold' _)
  · exact ⟨_, _, genrand64_int64_read c s h0 (by omega) hl, temper_lt _ (hw _)⟩

theorem replicate_getD (n v i : Nat) (h : i < n) : (List.replicate n v).getD i 0 = v := by
  simp [List.getElem?_replicate, h]

theorem replicate_zero_getD (n i : Nat) : (List.replicate n 0).getD i 0 = 0 := by
  by_cases h : i < n
  · simp [List.getElem?_replicate, h]
  · rw [List.getD_eq_default _ _ (by simpa using h)]

theorem zeroState_words (i : Nat) : zeroState.mt.getD i 0 = 0 := by
  unfold zeroState
  exact replicate_zero_getD NN i

/-! ## Derived outputs -/

theorem shr11_lt (r : Nat) (h : r < 2 ^ 64) : r >>> 11 < 2 ^ 53 := by
  rw [Nat.shiftRight_eq_div_pow]
  exact Nat.div_lt_of_lt_mul (by norm_num at h ⊢; exact h)

theorem shr12_lt (r : Nat) (h : r < 2 ^ 64) : r >>> 12 < 2 ^ 52 := by
  rw [Nat.shiftRight_eq_div_pow]
  exact Nat.div_lt_of_lt_mul (by norm_num at h ⊢; exact h)

theorem shr1_lt (r : Nat) (h : r < 2 ^ 64) : r >>> 1 < 2 ^ 63 := by
  rw [Nat.shiftRight_eq_div_pow]
  exact Nat.div_lt_of_lt_mul (by norm_num at h ⊢; exact h)

theorem genrand64_int63_eq (c : Macros) (s : mt64_t) :
    genrand64_int63 c s
      = (genrand64_int64 c s).map fun p => (toI64 (p.1 >>> 1), p.2) := by
  unfold genrand64_int63
  cases genrand64_int64 c s <;> rfl

theorem genrand64_real1_eq (c : Macros) (s : mt64_t) :
    genrand64_real1 c s
      = (genrand64_int64 c s).map fun p =>
          (mulRecip53 (p.1 >>> 11), p.2) := by
  unfold genrand64_real1
  cases genrand64_int64 c s <;> rfl

theorem genrand64_real2_eq (c : Macros) (s : mt64_t) :
    genrand64_real2 c s
      = (genrand64_int64 c s).map fun p =>
          (((p.1 >>> 11 : Nat) : ℚ) * (1 / 9007199254740992), p.2) := by
  unfold genrand64_real2
  cases genrand64_int64 c s <;> rfl

theorem genrand64_real3_eq (c : Macros) (s : mt64_t) :
    genrand64_real3 c s
      = (genrand64_int64 c s).map fun p =>
          ((((p.1 >>> 12 : Nat) : ℚ) + 1 / 2) * (1 / 4503599627370496), p.2) := by
  unfold genrand64_real3
  cases genrand64_int64 c s <;> rfl

/-! ## Empty key array, zero words, cursor range -/

/-- With an empty key array the first iteration of the first loop reads
`keys[0]`, which does not exist. -/
theorem init_by_array64_empty (s : mt64_t) (hl : s.mt.length = NN) :
    ∃ s0, init_genrand64 s 19650218 = some s0 ∧
      rd s0.mt 1 = some (s0.mt.getD 1 0) ∧ rd s0.mt ((1 : Int) - 1) = some (s0.mt.getD 0 0) ∧
      rd ([] : List Nat) 0 = none ∧
      init_by_array64_body1 [] 0 0 { mt := s0.mt, i := 1, j := 0 } = none ∧
      init_by_array64 s [] 0 = none := by
  have hN : NN = 312 := rfl
  obtain ⟨s0, hs0, hl0, _⟩ := init_genrand64_post s 19650218 hl
  have r1 : rd s0.mt 1 = some (s0.mt.getD 1 0) := rd_eq s0.mt 1 1 rfl (by omega)
  have r0 : rd s0.mt ((1 : Int) - 1) = some (s0.mt.getD 0 0) :=
    rd_eq s0.mt ((1 : Int) - 1) 0 rfl (by omega)
  have rk : rd ([] : List Nat) 0 = none := rfl
  have hb : init_by_array64_body1 [] 0 0 { mt := s0.mt, i := 1, j := 0 } = none := by
    unfold init_by_array64_body1
    simp only [Nat.cast_one, Nat.cast_zero]
    rw [r1, r0, rk]
    rfl
  refine ⟨s0, hs0, r1, r0, rk, hb, ?_⟩
  simp only [init_by_array64, hs0, Option.bind_eq_bind, Option.some_bind]
  rw [if_pos (by omega), show NN = 311 + 1 from rfl, forLoop, hb]
  rfl

theorem spec_twist_word_zero (c : Macros) : spec_twist_word c 0 0 0 = 0 := by
  simp [spec_twist_word, spec_x]

/-- The zero vector is a fixed point of the twist. -/
theorem twist_words_zero (c : Macros) :
    twist_words c (List.replicate NN 0) = some (List.replicate NN 0) := by
  have hN : NN = 312 := rfl
  have hz : ∀ i, (List.replicate NN 0).getD i 0 = 0 := replicate_zero_getD NN
  obtain ⟨new, hnew, hln, r1, r2, r3⟩ :=
    twist_words_post c (List.replicate NN 0) (List.length_replicate _ _)
  have h1 : ∀ i, i < 156 → new.getD i 0 = 0 := by
    intro i hi
    rw [r1 i hi, hz, hz, hz, spec_twist_word_zero]
  have h2 : ∀ i, i < NN → new.getD i 0 = 0 := by
    intro i hi
    by_cases ha : i < 156
    · exact h1 i ha
    · by_cases hb : i < 311
      · rw [r2 i (by omega) hb, hz, hz, h1 (i - 156) (by omega), spec_twist_word_zero]
      · have : i = 311 := by omega
        subst this
        rw [r3, hz, h1 0 (by omega), h1 155 (by omega), spec_twist_word_zero]
  rw [hnew]
  refine congrArg some ?_
  apply list_ext_getD
  · rw [hln, List.length_replicate]
  · intro i hi
    rw [h2 i (by rw [← hln]; exact hi), hz]

/-- On a state of zero words that is initialized, a call returns 0 and leaves
such a state. -/
theorem genrand64_int64_zero (c : Macros) (s : mt64_t)
    (hz : s.mt = List.replicate NN 0) (hi : s.initialized = true) (h0 : 0 ≤ s.mti) :
    ∃ s', genrand64_int64 c s = some (0, s') ∧ s'.mt = List.replicate NN 0 ∧
      s'.initialized = true ∧ 0 ≤ s'.mti := by
  have hl : s.mt.length = NN := by rw [hz, List.length_replicate]
  have ht : temper 0 = 0 := by decide
  by_cases hm : s.mti ≥ NN
  · obtain ⟨old, new, hold, _, hnew, _, h⟩ := genrand64_int64_twist c s hm hl
    rw [hi] at hold
    simp only [if_true, Option.some.injEq] at hold
    subst hold
    rw [hz, twist_words_zero] at hnew
    have : new = List.replicate NN 0 := (Option.some.inj hnew).symm
    subst this
    refine ⟨⟨List.replicate NN 0, 1, true⟩, ?_, rfl, rfl, by decide⟩
    rw [h, replicate_zero_getD, ht]
  · refine ⟨{ s with mti := s.mti + 1 }, ?_, hz, hi, ?_⟩
    · rw [genrand64_int64_read c s h0 (by omega) hl, hz, replicate_zero_getD, ht]
    · simp only []; omega

/-- A call keeps the flag `initialized` once it is set, and leaves the cursor
in `[1, NN]`. -/
theorem genrand64_int64_range (c : Macros) (s : mt64_t)
    (h0 : 0 ≤ s.mti) (hl : s.mt.length = NN) :
    ∃ r t, genrand64_int64 c s = some (r, t) ∧ 1 ≤ t.mti ∧ t.mti ≤ NN ∧ t.mt.length = NN ∧
      (s.initialized = true → t.initialized = true) := by
  have hN : NN = 312 := rfl
  by_cases hm : s.mti ≥ NN
  · obtain ⟨old, new, _, _, _, hln, h⟩ := genrand64_int64_twist c s hm hl
    exact ⟨_, ⟨new, 1, true⟩, h, le_refl _, (by decide : (1 : Int) ≤ NN), hln, fun _ => rfl⟩
  · refine ⟨_, _, genrand64_int64_read c s h0 (by omega) hl, ?_, ?_, hl, fun h => h⟩
    · simp only []; omega
    · simp only []; omega

/-- On a state of zero words that is initialized, any number of calls return
zeros. -/
theorem genrand64_int64_outputs_zero (c : Macros) (n : Nat) :
    ∀ s : mt64_t, s.mt = List.replicate NN 0 → s.initialized = true → 0 ≤ s.mti →
      genrand64_int64_outputs c n s = some (List.replicate n 0) := by
  induction n with
  | zero => intro s _ _ _; rfl
  | succ n ih =>
    intro s hz hi h0
    obtain ⟨s', h, hz', hi', h0'⟩ := genrand64_int64_zero c s hz hi h0
    simp only [genrand64_int64_outputs, h, Option.some_bind, ih s' hz' hi' h0',
      Option.map_some', List.replicate_succ]

/-- On a state of zero words that is initialized, any number of calls leave
zero words. -/
theorem genrand64_int64_state_zero (c : Macros) (s : mt64_t)
    (hz : s.mt = List.replicate NN 0) (hi : s.initialized = true) (h0 : 0 ≤ s.mti) (n : Nat) :
    ∃ t, genrand64_int64_state c n s = some t ∧ t.mt = List.replicate NN 0 ∧
      t.initialized = true ∧ 0 ≤ t.mti := by
  induction n with
  | zero => exact ⟨s, rfl, hz, hi, h0⟩
  | succ n ih =>
    obtain ⟨t, ht, hzt, hit, h0t⟩ := ih
    obtain ⟨t', h, hz', hi', h0'⟩ := genrand64_int64_zero c t hzt hit h0t
    refine ⟨t', ?_, hz', hi', h0'⟩
    simp [genrand64_int64_state, ht, h]

/-! ## The tempering is one-to-one -/

theorem fix_zero_down (d k : Nat) (hd : d < 2 ^ 64) (hk : 0 < k)
    (h : ∀ j, d.testBit j = true → d.testBit (k + j) = true) : d = 0 := by
  have key : ∀ n j, 64 ≤ j + n → d.testBit j = false := by
    intro n
    induction n with
    | zero =>
      intro j hj
      exact Nat.testBit_lt_two_pow
        (Nat.lt_of_lt_of_le hd (Nat.pow_le_pow_right (by norm_num) hj))
    | succ n ih =>
      intro j hj
      cases hb : d.testBit j
      · rfl
      · have h1 := h j hb
        rw [ih (k + j) (by omega)] at h1
        exact Bool.noConfusion h1
  apply Nat.eq_of_testBit_eq
  intro i
  rw [Nat.zero_testBit]
  exact key 64 i (by omega)

theorem fix_zero_up (d k : Nat) (hk : 0 < k)
    (h : ∀ j, d.testBit j = true → k ≤ j ∧ d.testBit (j - k) = true) : d = 0 := by
  have key : ∀ j, d.testBit j = false := by
    intro j
    induction j using Nat.strong_induction_on with
    | _ j ih =>
      cases hb : d.testBit j
      · rfl
      · obtain ⟨h1, h2⟩ := h j hb
        rw [ih (j - k) (by omega)] at h2
        exact Bool.noConfusion h2
  apply Nat.eq_of_testBit_eq
  intro i
  rw [Nat.zero_testBit]
  exact key i

theorem shr_and_xor (a b k m : Nat) :
    ((a ^^^ b) >>> k) &&& m = ((a >>> k) &&& m) ^^^ ((b >>> k) &&& m) := by
  apply Nat.eq_of_testBit_eq
  intro i
  simp only [Nat.testBit_and, Nat.testBit_xor, Nat.testBit_shiftRight]
  cases a.testBit (k + i) <;> cases b.testBit (k + i) <;> cases m.testBit i <;> rfl

theorem shl_and_xor (a b k m : Nat) :
    shl64 (a ^^^ b) k &&& m = (shl64 a k &&& m) ^^^ (shl64 b k &&& m) := by
  unfold shl64
  apply Nat.eq_of_testBit_eq
  intro i
  simp only [Nat.testBit_and, Nat.testBit_xor, Nat.testBit_mod_two_pow, Nat.testBit_shiftLeft]
  cases decide (i < 64) <;> cases decide (i ≥ k) <;> cases a.testBit (i - k) <;>
    cases b.testBit (i - k) <;> cases m.testBit i <;> rfl

theorem xor_step_diff (a b x y : Nat) (h : a ^^^ x = b ^^^ y) : a ^^^ b = x ^^^ y := by
  apply Nat.xor_eq_zero.mp
  rw [show (a ^^^ b) ^^^ (x ^^^ y) = (a ^^^ x) ^^^ (b ^^^ y) by ac_rfl, h, Nat.xor_self]

/-- A step `x ^= (x >> k) & m` is one-to-one on 64-bit words. -/
theorem shr_step_inj (k m a b : Nat) (hk : 0 < k) (ha : a < 2 ^ 64) (hb : b < 2 ^ 64)
    (h : a ^^^ ((a >>> k) &&& m) = b ^^^ ((b >>> k) &&& m)) : a = b := by
  have hd := xor_step_diff _ _ _ _ h
  rw [← shr_and_xor] at hd
  apply Nat.xor_eq_zero.mp
  apply fix_zero_down _ k (Nat.xor_lt_two_pow ha hb) hk
  intro j hj
  rw [hd] at hj
  simp only [Nat.testBit_and, Nat.testBit_shiftRight, Bool.and_eq_true] at hj
  exact hj.1

/-- A step `x ^= (x << k) & m` is one-to-one. -/
theorem shl_step_inj (k m a b : Nat) (hk : 0 < k)
    (h : a ^^^ (shl64 a k &&& m) = b ^^^ (shl64 b k &&& m)) : a = b := by
  have hd := xor_step_diff _ _ _ _ h
  rw [← shl_and_xor] at hd
  apply Nat.xor_eq_zero.mp
  apply fix_zero_up _ k hk
  intro j hj
  rw [hd] at hj
  unfold shl64 at hj
  simp only [Nat.testBit_and, Nat.testBit_mod_two_pow, Nat.testBit_shiftLeft,
    Bool.and_eq_true, decide_eq_true_eq] at hj
  exact ⟨hj.1.2.1, hj.1.2.2⟩

theorem shr_mask_all (x k : Nat) (h : x < 2 ^ 64) : (x >>> k) &&& (2 ^ 64 - 1) = x >>> k := by
  rw [Nat.and_pow_two_sub_one_eq_mod]
  exact Nat.mod_eq_of_lt (shr_lt x k h)

/-- The tempering is one-to-one on 64-bit words. -/
theorem temper_inj (a b : Nat) (ha : a < 2 ^ 64) (hb : b < 2 ^ 64)
    (h : temper a = temper b) : a = b := by
  unfold temper at h
  dsimp only at h
  have a1 := xor_shr_lt a 29 0x5555555555555555 ha
  have b1 := xor_shr_lt b 29 0x5555555555555555 hb
  have a2 := xor_shl_lt _ 17 0x71D67FFFEDA60000 a1
  have b2 := xor_shl_lt _ 17 0x71D67FFFEDA60000 b1
  have a3 := xor_shl_lt _ 37 0xFFF7EEE000000000 a2
  have b3 := xor_shl_lt _ 37 0xFFF7EEE000000000 b2
  rw [← shr_mask_all _ 43 a3, ← shr_mask_all _ 43 b3] at h
  have h3 := shr_step_inj 43 _ _ _ (by norm_num) a3 b3 h
  have h2 := shl_step_inj 37 _ _ _ (by norm_num) h3
  have h1 := shl_step_inj 17 _ _ _ (by norm_num) h2
  exact shr_step_inj 29 _ _ _ (by norm_num) ha hb h1

/-! ## The split of the specification -/

theorem and_top_bit (w w' : Nat) (h : w'.testBit 63 = w.testBit 63) :
    w' &&& 2 ^ 63 = w &&& 2 ^ 63 := by
  apply Nat.eq_of_testBit_eq
  intro i
  simp only [Nat.testBit_and, Nat.testBit_two_pow]
  by_cases hi : 63 = i
  · subst hi; rw [h]
  · simp [hi]

theorem spec_x_specSplit_testBit (A a b k : Nat) :
    ((a &&& (specSplit A).UM) ||| (b &&& (specSplit A).LM)).testBit k
      = if k = 63 then a.testBit 63 else (decide (k < 63) && b.testBit k) := by
  simp only [specSplit, Nat.testBit_or, Nat.testBit_and, Nat.testBit_two_pow,
    Nat.testBit_two_pow_sub_one]
  by_cases hk : k = 63
  · subst hk; simp
  · rw [if_neg hk]
    have : ¬ 63 = k := fun h => hk h.symm
    simp [this, Bool.and_comm]

theorem spec_twist_word_specSplit (A a a' b m : Nat) (h : a' &&& 2 ^ 63 = a &&& 2 ^ 63) :
    spec_twist_word (specSplit A) a' b m = spec_twist_word (specSplit A) a b m := by
  unfold spec_twist_word spec_x
  simp only [specSplit]
  rw [h]

/-- With the split of the specification the twisted words do not depend on
bits 0..62 of the word 0 the twist starts from. -/
theorem twist_words_specSplit (A : Nat) (old : List Nat) (w' : Nat) (hl : old.length = NN)
    (hb : w'.testBit 63 = (old.getD 0 0).testBit 63) :
    twist_words (specSplit A) (old.set 0 w') = twist_words (specSplit A) old := by
  have hN : NN = 312 := rfl
  have hl' : (old.set 0 w').length = NN := by simp [hl]
  have e0 : (old.set 0 w').getD 0 0 = w' := getD_set_eq _ _ _ (by omega)
  have er : ∀ i, 1 ≤ i → (old.set 0 w').getD i 0 = old.getD i 0 := by
    intro i hi; exact getD_set_ne _ _ _ _ (by omega)
  have ht := and_top_bit _ _ hb
  obtain ⟨new, hnew, hln, r1, r2, r3⟩ := twist_words_post (specSplit A) old hl
  obtain ⟨new', hnew', hln', q1, q2, q3⟩ := twist_words_post (specSplit A) (old.set 0 w') hl'
  have h1 : ∀ i, i < 156 → new'.getD i 0 = new.getD i 0 := by
    intro i hi
    rw [q1 i hi, r1 i hi, er (i + 1) (by omega), er (i + 156) (by omega)]
    by_cases hz : i = 0
    · subst hz
      rw [e0]
      exact spec_twist_word_specSplit A _ _ _ _ ht
    · rw [er i (by omega)]
  have h2 : ∀ i, i < NN → new'.getD i 0 = new.getD i 0 := by
    intro i hi
    by_cases ha : i < 156
    · exact h1 i ha
    · by_cases hb' : i < 311
      · rw [q2 i (by omega) hb', r2 i (by omega) hb', er i (by omega), er (i + 1) (by omega),
          h1 (i - 156) (by omega)]
      · have : i = 311 := by omega
        subst this
        rw [q3, r3, er 311 (by omega), h1 0 (by omega), h1 155 (by omega)]
  rw [hnew, hnew']
  refine congrArg some ?_
  apply list_ext_getD
  · rw [hln, hln']
  · intro i hi
    exact h2 i (by rw [← hln']; exact hi)

/-- The reference run with the masks of the published program, for any matrix
coefficient. -/
theorem refKeys_first_value_published (c : Macros)
    (hU : c.UM = 0xFFFFFFFF80000000) (hL : c.LM = 0x7FFFFFFF) :
    temper (spec_twist_word c (2 ^ 63) (finWord1 refKeys) (finWord refKeys 156))
      = 7266447313870364031 := by
  have hx : (2 ^ 63 &&& 0xFFFFFFFF80000000) ||| (finWord1 refKeys &&& 0x7FFFFFFF)
      = 9223372037502587516 := by decide!
  have hv : temper (finWord refKeys 156 ^^^ (9223372037502587516 >>> 1) ^^^ 0)
      = 7266447313870364031 := by decide!
  unfold spec_twist_word spec_x
  rw [hU, hL, hx, if_neg (by decide)]
  exact hv

/-- With the masks of the published program (`UM` the most significant 33
bits, `LM` the least significant 31 bits) and any matrix coefficient, the
first value of the reference run is the published 7266447313870364031. -/
theorem reference_first_output_published (c : Macros)
    (hU : c.UM = 0xFFFFFFFF80000000) (hL : c.LM = 0x7FFFFFFF)
    (s : mt64_t) (hl : s.mt.length = NN) :
    ∃ s1 s2, init_by_array64 s [0x12345, 0x23456, 0x34567, 0x45678] 4 = some s1 ∧
      genrand64_int64 c s1 = some (7266447313870364031, s2) := by
  obtain ⟨s1, h1, hl1, hm1, hi1, w0, w1, hw⟩ :=
    init_by_array64_words s refKeys hl (by decide) (by decide)
  obtain ⟨s2, h2⟩ := genrand64_int64_first c s1 hi1 (by rw [hm1]) hl1
  rw [w0, w1, hw 156 (by decide) (by decide), refKeys_first_value_published c hU hL] at h2
  exact ⟨s1, s2, h1, h2⟩


/-! ## The double product of `genrand64_real1` -/

theorem log2_eq (N k : Nat) (h1 : 2 ^ k ≤ N) (h2 : N < 2 ^ (k + 1)) : Nat.log2 N = k := by
  have hN : N ≠ 0 := by
    have : 0 < 2 ^ k := Nat.two_pow_pos _
    omega
  have a : k ≤ N.log2 := (Nat.le_log2 hN).2 h1
  have b : N.log2 < k + 1 := (Nat.log2_lt hN).2 h2
  omega

theorem round53_small (N : Nat) (h : N < 2 ^ 53) : round53 N = N := by
  unfold round53
  rw [if_pos h]

theorem round53_of_log (N k : Nat) (hk : 53 ≤ k) (h1 : 2 ^ k ≤ N) (h2 : N < 2 ^ (k + 1)) :
    round53 N
      = (if 2 * (N % 2 ^ (k - 52)) > 2 ^ (k - 52) ∨
            (2 * (N % 2 ^ (k - 52)) = 2 ^ (k - 52) ∧ N / 2 ^ (k - 52) % 2 = 1)
          then N / 2 ^ (k - 52) + 1 else N / 2 ^ (k - 52)) * 2 ^ (k - 52) := by
  unfold round53
  have : ¬ N < 2 ^ 53 :=
    Nat.not_lt.2 (Nat.le_trans (Nat.pow_le_pow_right (by norm_num) hk) h1)
  rw [if_neg this, log2_eq N k h1 h2]

theorem round53_le_pow (N k : Nat) (h : N < 2 ^ (k + 1)) :
    round53 N ≤ 2 ^ (k + 1) := by
  by_cases hs : N < 2 ^ 53
  · rw [round53_small N hs]; exact Nat.le_of_lt h
  · have hN : N ≠ 0 := by
      intro h0; apply hs; rw [h0]; norm_num
    have h1 : 2 ^ N.log2 ≤ N := Nat.log2_self_le hN
    have h2 : N < 2 ^ (N.log2 + 1) := Nat.lt_log2_self
    have hL : 53 ≤ N.log2 := (Nat.le_log2 hN).2 (Nat.le_of_not_lt hs)
    have hLk : N.log2 < k + 1 := (Nat.log2_lt hN).2 h
    rw [round53_of_log N N.log2 hL h1 h2]
    have e : 2 ^ (N.log2 + 1) = 2 ^ 53 * 2 ^ (N.log2 - 52) := by
      rw [← Nat.pow_add]; congr 1; omega
    have hm : N / 2 ^ (N.log2 - 52) < 2 ^ 53 := by
      rw [Nat.div_lt_iff_lt_mul (Nat.two_pow_pos _)]
      rw [← e]; exact h2
    have hi : (if 2 * (N % 2 ^ (N.log2 - 52)) > 2 ^ (N.log2 - 52) ∨
            (2 * (N % 2 ^ (N.log2 - 52)) = 2 ^ (N.log2 - 52) ∧
              N / 2 ^ (N.log2 - 52) % 2 = 1)
          then N / 2 ^ (N.log2 - 52) + 1 else N / 2 ^ (N.log2 - 52)) ≤ 2 ^ 53 := by
      split <;> omega
    calc _ ≤ 2 ^ 53 * 2 ^ (N.log2 - 52) := Nat.mul_le_mul_right _ hi
      _ = 2 ^ (N.log2 + 1) := e.symm
      _ ≤ 2 ^ (k + 1) := Nat.pow_le_pow_right (by norm_num) (by omega)

theorem round53_eq_zero (N : Nat) (h : round53 N = 0) : N = 0 := by
  by_cases hs : N < 2 ^ 53
  · rw [round53_small N hs] at h; exact h
  · exfalso
    have hN : N ≠ 0 := by
      intro h0; apply hs; rw [h0]; norm_num
    have h1 : 2 ^ N.log2 ≤ N := Nat.log2_self_le hN
    have h2 : N < 2 ^ (N.log2 + 1) := Nat.lt_log2_self
    have hL : 53 ≤ N.log2 := (Nat.le_log2 hN).2 (Nat.le_of_not_lt hs)
    rw [round53_of_log N N.log2 hL h1 h2] at h
    have hp : 0 < 2 ^ (N.log2 - 52) := Nat.two_pow_pos _
    have hm : 0 < N / 2 ^ (N.log2 - 52) :=
      Nat.div_pos (Nat.le_trans (Nat.pow_le_pow_right (by norm_num) (by omega)) h1) hp
    rcases Nat.mul_eq_zero.1 h with h' | h'
    · split at h' <;> omega
    · omega

theorem round53_top (N : Nat) (h1 : 2 ^ 105 ≤ N) (h2 : N < 2 ^ 105 + 2 ^ 52) :
    round53 N = 2 ^ 105 := by
  rw [round53_of_log N 105 (by norm_num) h1 (by norm_num at h2 ⊢; omega)]
  norm_num at h1 h2 ⊢
  split <;> omega

theorem round53_below (N : Nat) (h : N + 2 ^ 52 + 3 ≤ 2 ^ 105) : round53 N < 2 ^ 105 := by
  by_cases h1 : N < 2 ^ 104
  · have := round53_le_pow N 103 h1
    norm_num at this ⊢
    omega
  · rw [round53_of_log N 104 (by norm_num) (Nat.le_of_not_lt h1) (by norm_num at h ⊢; omega)]
    norm_num at h h1 ⊢
    split <;> omega

theorem round53_near_top (N : Nat) (h1 : 2 ^ 105 ≤ N + 2 ^ 51) (h2 : N < 2 ^ 105) :
    round53 N = 2 ^ 105 := by
  rw [round53_of_log N 104 (by norm_num) (by norm_num at h1 ⊢; omega) h2]
  norm_num at h1 h2 ⊢
  split <;> omega

/-- The rounding moves a number below `2^106` by at most `2^52`. -/
theorem round53_error (N : Nat) (h : N < 2 ^ 106) :
    round53 N ≤ N + 2 ^ 52 ∧ N ≤ round53 N + 2 ^ 52 := by
  by_cases hs : N < 2 ^ 53
  · rw [round53_small N hs]; omega
  · have hN : N ≠ 0 := by
      intro h0; apply hs; rw [h0]; norm_num
    have h1 : 2 ^ N.log2 ≤ N := Nat.log2_self_le hN
    have h2 : N < 2 ^ (N.log2 + 1) := Nat.lt_log2_self
    have hL : 53 ≤ N.log2 := (Nat.le_log2 hN).2 (Nat.le_of_not_lt hs)
    have hLk : N.log2 < 106 := (Nat.log2_lt hN).2 h
    rw [round53_of_log N N.log2 hL h1 h2]
    have hP : 2 ^ (N.log2 - 52) ≤ 2 ^ 53 := Nat.pow_le_pow_right (by norm_num) (by omega)
    have hpos : 0 < 2 ^ (N.log2 - 52) := Nat.two_pow_pos _
    have hdm := Nat.div_add_mod N (2 ^ (N.log2 - 52))
    have hr := Nat.mod_lt N hpos
    generalize 2 ^ (N.log2 - 52) = P at *
    generalize N % P = rem at *
    have e1 : (N / P + 1) * P = P * (N / P) + P := by ring
    have e2 : N / P * P = P * (N / P) := by ring
    generalize hq : P * (N / P) = q at *
    norm_num at hP ⊢
    split
    · rw [e1]; omega
    · rw [e2]; omega

theorem recip53_nearest :
    (2 ^ 52 : ℚ) / 2 ^ 105 < 1 / (2 ^ 53 - 1) ∧ 1 / (2 ^ 53 - 1) < recip53 ∧
      recip53 - 1 / (2 ^ 53 - 1) < 1 / (2 ^ 53 - 1) - 2 ^ 52 / 2 ^ 105 := by
  unfold recip53
  norm_num

theorem mulRecip53_exact (n : Nat) :
    ((n * (2 ^ 52 + 1) : Nat) : ℚ) / 2 ^ 105 = (n : ℚ) * recip53 := by
  unfold recip53
  push_cast
  ring

theorem mulRecip53_nonneg (n : Nat) : 0 ≤ mulRecip53 n := by
  unfold mulRecip53
  positivity

theorem mulRecip53_le_one (n : Nat) (h : n < 2 ^ 53) : mulRecip53 n ≤ 1 := by
  unfold mulRecip53
  rw [div_le_one (by positivity)]
  have : round53 (n * (2 ^ 52 + 1)) ≤ 2 ^ 105 := by
    by_cases h1 : n * (2 ^ 52 + 1) < 2 ^ 105
    · exact round53_le_pow _ 104 h1
    · rw [round53_top _ (Nat.le_of_not_lt h1) (by norm_num at h ⊢; omega)]
  exact_mod_cast this

theorem mulRecip53_eq_zero (n : Nat) : mulRecip53 n = 0 ↔ n = 0 := by
  unfold mulRecip53
  constructor
  · intro h
    rcases div_eq_zero_iff.1 h with h' | h'
    · have h0 : round53 (n * (2 ^ 52 + 1)) = 0 := by exact_mod_cast h'
      have := round53_eq_zero _ h0
      norm_num at this
      omega
    · norm_num at h'
  · intro h
    subst h
    rw [Nat.zero_mul, round53_small 0 (by norm_num)]
    norm_num

theorem mulRecip53_eq_one (n : Nat) (h : n < 2 ^ 53) :
    mulRecip53 n = 1 ↔ 2 ^ 53 - 2 ≤ n := by
  unfold mulRecip53
  rw [div_eq_one_iff_eq (by positivity)]
  constructor
  · intro hv
    by_contra hn
    have hlt : round53 (n * (2 ^ 52 + 1)) < 2 ^ 105 :=
      round53_below _ (by norm_num at h hn ⊢; omega)
    have hv' : round53 (n * (2 ^ 52 + 1)) = 2 ^ 105 := by exact_mod_cast hv
    omega
  · intro hn
    have hv : round53 (n * (2 ^ 52 + 1)) = 2 ^ 105 := by
      by_cases h1 : n * (2 ^ 52 + 1) < 2 ^ 105
      · exact round53_near_top _ (by norm_num at h hn ⊢; omega) h1
      · exact round53_top _ (Nat.le_of_not_lt h1) (by norm_num at h ⊢; omega)
    exact_mod_cast hv

/-- The double product is within `2^-52` of the exact quotient. -/
theorem mulRecip53_near (n : Nat) (h : n < 2 ^ 53) :
    |mulRecip53 n - (n : ℚ) / (2 ^ 53 - 1)| < 1 / 2 ^ 52 := by
  have hN : n * (2 ^ 52 + 1) < 2 ^ 106 := by norm_num at h ⊢; omega
  obtain ⟨e1, e2⟩ := round53_error _ hN
  have q1 : (round53 (n * (2 ^ 52 + 1)) : ℚ) ≤ (n : ℚ) * (2 ^ 52 + 1) + 2 ^ 52 := by
    exact_mod_cast e1
  have q2 : (n : ℚ) * (2 ^ 52 + 1) ≤ (round53 (n * (2 ^ 52 + 1)) : ℚ) + 2 ^ 52 := by
    exact_mod_cast e2
  have hD : (0 : ℚ) < 2 ^ 53 - 1 := by norm_num
  have hn1 : (n : ℚ) + 1 ≤ 2 ^ 53 := by exact_mod_cast h
  have y0 : (0 : ℚ) ≤ (n : ℚ) / (2 ^ 53 - 1) := by positivity
  have y1 : (n : ℚ) / (2 ^ 53 - 1) ≤ 1 := by
    rw [div_le_one hD]; linarith
  have hny : (n : ℚ) = (n : ℚ) / (2 ^ 53 - 1) * (2 ^ 53 - 1) := by
    field_simp
  have hRx : (round53 (n * (2 ^ 52 + 1)) : ℚ)
      = (round53 (n * (2 ^ 52 + 1)) : ℚ) / 2 ^ 105 * 2 ^ 105 := by
    field_simp
  unfold mulRecip53
  generalize (n : ℚ) / (2 ^ 53 - 1) = y at *
  generalize (round53 (n * (2 ^ 52 + 1)) : ℚ) / 2 ^ 105 = x at *
  rw [hRx, hny] at q1 q2
  rw [abs_lt]
  constructor
  · norm_num at q1 q2 ⊢
    linarith
  · norm_num at q1 q2 ⊢
    linarith

/-! ## The claims -/

/-- C1. Scalar seeding: for every prior state with its `NN` words and every
seed, `init_genrand64` returns a state with `words[0] = seed`, for every `i`
with `1 <= i <= 311` `words[i] = (6364136223846793005 * (words[i-1] XOR
(words[i-1] >> 62)) + i) mod 2^64`, cursor `312` and `initialized = true`. -/
theorem C1_scalar_seeding (s : mt64_t) (seed : Nat) (hl : s.mt.length = NN) :
    ∃ s', init_genrand64 s seed = some s' ∧ s'.mt.length = 312 ∧ s'.mt.getD 0 0 = seed ∧
      (∀ i, 1 ≤ i → i ≤ 311 → s'.mt.getD i 0
        = (6364136223846793005 * (s'.mt.getD (i - 1) 0 ^^^ (s'.mt.getD (i - 1) 0 >>> 62)) + i)
            % 2 ^ 64) ∧
      s'.mti = 312 ∧ s'.initialized = true := by
  obtain ⟨s', h, hl', hz, hr, hm, hi⟩ := init_genrand64_post s seed hl
  exact ⟨s', h, hl', hz, fun i h1 h2 => hr i h1 (by unfold NN; omega), hm, hi⟩

theorem C1_scalar_seeding_witness :
    zeroState.mt.length = NN ∧
    ∃ s', init_genrand64 zeroState 0 = some s' ∧ s'.mt.length = 312 ∧ s'.mt.getD 0 0 = 0 ∧
      (∀ i, 1 ≤ i → i ≤ 311 → s'.mt.getD i 0
        = (6364136223846793005 * (s'.mt.getD (i - 1) 0 ^^^ (s'.mt.getD (i - 1) 0 >>> 62)) + i)
            % 2 ^ 64) ∧
      s'.mti = 312 ∧ s'.initialized = true :=
  ⟨zeroState_length, C1_scalar_seeding zeroState 0 zeroState_length⟩

/-- C2. Array seeding equals the reference algorithm: for every non-empty key
sequence of length `L < 2^32`, `init_by_array64` returns the state of
`spec_init_by_array64`: scalar seeding with 19650218, `max(312, L)` key-mixing
steps with `i = 1 + (t mod 311)`, `j = t mod L`, 311 further steps of the
second pass on the same circular index, and `words[0] = 2^63`. -/
theorem C2_array_seeding_refines (s : mt64_t) (keys : List Nat)
    (hl : s.mt.length = NN) (hk : keys ≠ []) (hk2 : keys.length < 2 ^ 32) :
    init_by_array64 s keys keys.length = spec_init_by_array64 s keys ∧
      ∃ s', init_by_array64 s keys keys.length = some s' := by
  have hpos : 0 < keys.length := List.length_pos.mpr hk
  obtain ⟨s', h, _⟩ := init_by_array64_post s keys hl hpos
  exact ⟨init_by_array64_refines s keys hl hpos hk2, s', h⟩

theorem C2_array_seeding_refines_witness :
    zeroState.mt.length = NN ∧ [1, 2, 3] ≠ ([] : List Nat) ∧ [1, 2, 3].length < 2 ^ 32 ∧
    (init_by_array64 zeroState [1, 2, 3] [1, 2, 3].length
        = spec_init_by_array64 zeroState [1, 2, 3] ∧
      ∃ s', init_by_array64 zeroState [1, 2, 3] [1, 2, 3].length = some s') :=
  ⟨zeroState_length, by decide, by decide,
    C2_array_seeding_refines zeroState [1, 2, 3] zeroState_length (by decide) (by decide)⟩

/-- C3. Array seeding postcondition: for every prior state with its `NN` words
and every non-empty key sequence, `init_by_array64` returns a state with
`words[0] = 2^63`, cursor `312` and `initialized = true`. -/
theorem C3_array_seeding_post (s : mt64_t) (keys : List Nat)
    (hl : s.mt.length = NN) (hk : keys ≠ []) :
    ∃ s', init_by_array64 s keys keys.length = some s' ∧ s'.mt.length = 312 ∧
      s'.mt.getD 0 0 = 2 ^ 63 ∧ s'.mti = 312 ∧ s'.initialized = true :=
  init_by_array64_post s keys hl (List.length_pos.mpr hk)

theorem C3_array_seeding_post_witness :
    zeroState.mt.length = NN ∧ [7] ≠ ([] : List Nat) ∧
    ∃ s', init_by_array64 zeroState [7] [7].length = some s' ∧ s'.mt.length = 312 ∧
      s'.mt.getD 0 0 = 2 ^ 63 ∧ s'.mti = 312 ∧ s'.initialized = true :=
  ⟨zeroState_length, by decide, C3_array_seeding_post zeroState [7] zeroState_length (by decide)⟩

/-- C4. Raw extraction without twist: for every state with `0 <= cursor < 312`,
`genrand64_int64` returns the tempering `T(words[cursor])`, with `x1 = x XOR
((x >> 29) AND 0x5555555555555555)`, `x2 = x1 XOR ((x1 << 17) AND
0x71D67FFFEDA60000)`, `x3 = x2 XOR ((x2 << 37) AND 0xFFF7EEE000000000)`,
`T = x3 XOR (x3 >> 43)`, the left shifts truncated to 64 bits; the cursor is
increased by 1, the words and the flag `initialized` are unchanged. -/
theorem C4_raw_extraction (c : Macros) (s : mt64_t)
    (h0 : 0 ≤ s.mti) (h1 : s.mti < 312) (hl : s.mt.length = NN) :
    ∃ x x1 x2 x3, x = s.mt.getD s.mti.toNat 0 ∧
      x1 = x ^^^ ((x >>> 29) &&& 0x5555555555555555) ∧
      x2 = x1 ^^^ (((x1 <<< 17) % 2 ^ 64) &&& 0x71D67FFFEDA60000) ∧
      x3 = x2 ^^^ (((x2 <<< 37) % 2 ^ 64) &&& 0xFFF7EEE000000000) ∧
      genrand64_int64 c s = some (x3 ^^^ (x3 >>> 43),
        { mt := s.mt, mti := s.mti + 1, initialized := s.initialized }) :=
  ⟨_, _, _, _, rfl, rfl, rfl, rfl, genrand64_int64_read c s h0 h1 hl⟩

theorem C4_raw_extraction_witness :
    (0 : Int) ≤ zeroState.mti ∧ zeroState.mti < 312 ∧ zeroState.mt.length = NN ∧
    ∃ x x1 x2 x3, x = zeroState.mt.getD zeroState.mti.toNat 0 ∧
      x1 = x ^^^ ((x >>> 29) &&& 0x5555555555555555) ∧
      x2 = x1 ^^^ (((x1 <<< 17) % 2 ^ 64) &&& 0x71D67FFFEDA60000) ∧
      x3 = x2 ^^^ (((x2 <<< 37) % 2 ^ 64) &&& 0xFFF7EEE000000000) ∧
      genrand64_int64 refMacros zeroState = some (x3 ^^^ (x3 >>> 43),
        { mt := zeroState.mt, mti := zeroState.mti + 1,
          initialized := zeroState.initialized }) :=
  ⟨by decide, by decide, zeroState_length,
    C4_raw_extraction refMacros zeroState (by decide) (by decide) zeroState_length⟩

/-- C5. Twist: for every state with `cursor >= 312`, let `old` be the words if
`initialized`, else the words of `init_genrand64` with seed 5489.  One call of
`genrand64_int64` leaves words `new` with `new[i] = c_i XOR (x_i >> 1) XOR
(MATRIX_A if x_i is odd else 0)`, `x_i = (a_i AND UM) OR (b_i AND LM)`, where
for `0 <= i < 156`: `a_i = old[i]`, `b_i = old[i+1]`, `c_i = old[i+156]`; for
`156 <= i < 311`: `a_i = old[i]`, `b_i = old[i+1]`, `c_i = new[i-156]`; for
`i = 311`: `a_i = old[311]`, `b_i = new[0]`, `c_i = new[155]`.  The call returns
the tempering of `new[0]` and leaves cursor `1` and `initialized = true`. -/
theorem C5_twist (c : Macros) (s : mt64_t) (hm : s.mti ≥ 312) (hl : s.mt.length = NN) :
    ∃ old new, (if s.initialized then some s.mt
        else (init_genrand64 s 5489).map fun t => t.mt) = some old ∧
      genrand64_int64 c s
        = some (temper (new.getD 0 0), { mt := new, mti := 1, initialized := true }) ∧
      new.length = 312 ∧
      (∀ i, i < 156 → new.getD i 0
        = spec_twist_word c (old.getD i 0) (old.getD (i + 1) 0) (old.getD (i + 156) 0)) ∧
      (∀ i, 156 ≤ i → i < 311 → new.getD i 0
        = spec_twist_word c (old.getD i 0) (old.getD (i + 1) 0) (new.getD (i - 156) 0)) ∧
      new.getD 311 0
        = spec_twist_word c (old.getD 311 0) (new.getD 0 0) (new.getD 155 0) := by
  obtain ⟨old, new, hold, hlo, hnew, hln, h⟩ := genrand64_int64_twist c s hm hl
  obtain ⟨new', hnew', _, r1, r2, r3⟩ := twist_words_post c old hlo
  have : new' = new := by rw [hnew] at hnew'; exact (Option.some.inj hnew').symm
  subst this
  exact ⟨old, new', hold, h, hln, r1, r2, r3⟩

theorem C5_twist_witness :
    ({ zeroState with mti := 312 } : mt64_t).mti ≥ 312 ∧
    ({ zeroState with mti := 312 } : mt64_t).mt.length = NN ∧
    ∃ old new, (if ({ zeroState with mti := 312 } : mt64_t).initialized
        then some ({ zeroState with mti := 312 } : mt64_t).mt
        else (init_genrand64 { zeroState with mti := 312 } 5489).map fun t => t.mt) = some old ∧
      genrand64_int64 refMacros { zeroState with mti := 312 }
        = some (temper (new.getD 0 0), { mt := new, mti := 1, initialized := true }) ∧
      new.length = 312 ∧
      (∀ i, i < 156 → new.getD i 0
        = spec_twist_word refMacros (old.getD i 0) (old.getD (i + 1) 0)
            (old.getD (i + 156) 0)) ∧
      (∀ i, 156 ≤ i → i < 311 → new.getD i 0
        = spec_twist_word refMacros (old.getD i 0) (old.getD (i + 1) 0)
            (new.getD (i - 156) 0)) ∧
      new.getD 311 0
        = spec_twist_word refMacros (old.getD 311 0) (new.getD 0 0) (new.getD 155 0) :=
  ⟨by decide, zeroState_length,
    C5_twist refMacros { zeroState with mti := 312 } (by decide) zeroState_length⟩

/-- C6. Re-seeding resets the generator regardless of history: for every two
states `S1`, `S2` with their `NN` words (any words, cursor and flag),
`init_genrand64` with the same seed returns the same state from both, and for
every non-empty key sequence so does `init_by_array64`; hence for every `n`
the first `n` outputs of `genrand64_int64` after the two seedings are the
same list of `n` values. -/
theorem C6_reseed_deterministic (c : Macros) (S1 S2 : mt64_t) (seed : Nat) (keys : List Nat)
    (n : Nat) (h1 : S1.mt.length = NN) (h2 : S2.mt.length = NN) (hk : keys ≠ []) :
    (∃ t xs, init_genrand64 S1 seed = some t ∧ init_genrand64 S2 seed = some t ∧
      (init_genrand64 S1 seed).bind (genrand64_int64_outputs c n) = some xs ∧
      (init_genrand64 S2 seed).bind (genrand64_int64_outputs c n) = some xs ∧
      xs.length = n) ∧
    (∃ t xs, init_by_array64 S1 keys keys.length = some t ∧
      init_by_array64 S2 keys keys.length = some t ∧
      (init_by_array64 S1 keys keys.length).bind (genrand64_int64_outputs c n) = some xs ∧
      (init_by_array64 S2 keys keys.length).bind (genrand64_int64_outputs c n) = some xs ∧
      xs.length = n) := by
  have hN : NN = 312 := rfl
  constructor
  · obtain ⟨t, ht, hlt, _, _, hmt, _⟩ := init_genrand64_post S1 seed h1
    have e := init_genrand64_indep S1 S2 seed h1 h2
    obtain ⟨xs, hxs, hlen⟩ := genrand64_int64_outputs_total c n t (by rw [hmt]; omega) hlt
    refine ⟨t, xs, ht, by rw [← e]; exact ht, ?_, ?_, hlen⟩
    · rw [ht]; exact hxs
    · rw [← e, ht]; exact hxs
  · obtain ⟨t, ht, hlt, _, hmt, _⟩ := init_by_array64_post S1 keys h1 (List.length_pos.mpr hk)
    have e := init_by_array64_indep S1 S2 keys keys.length h1 h2
    obtain ⟨xs, hxs, hlen⟩ := genrand64_int64_outputs_total c n t (by rw [hmt]; omega) hlt
    refine ⟨t, xs, ht, by rw [← e]; exact ht, ?_, ?_, hlen⟩
    · rw [ht]; exact hxs
    · rw [← e, ht]; exact hxs

theorem C6_reseed_deterministic_witness :
    zeroState.mt.length = NN ∧
    ({ mt := List.replicate NN 5, mti := 17, initialized := true } : mt64_t).mt.length = NN ∧
    [3, 4] ≠ ([] : List Nat) ∧
    ((∃ t xs, init_genrand64 zeroState 9 = some t ∧
      init_genrand64 { mt := List.replicate NN 5, mti := 17, initialized := true } 9 = some t ∧
      (init_genrand64 zeroState 9).bind (genrand64_int64_outputs refMacros 5) = some xs ∧
      (init_genrand64 { mt := List.replicate NN 5, mti := 17, initialized := true } 9).bind
        (genrand64_int64_outputs refMacros 5) = some xs ∧
      xs.length = 5) ∧
    (∃ t xs, init_by_array64 zeroState [3, 4] [3, 4].length = some t ∧
      init_by_array64 { mt := List.replicate NN 5, mti := 17, initialized := true } [3, 4]
        [3, 4].length = some t ∧
      (init_by_array64 zeroState [3, 4] [3, 4].length).bind
        (genrand64_int64_outputs refMacros 5) = some xs ∧
      (init_by_array64 { mt := List.replicate NN 5, mti := 17, initialized := true } [3, 4]
        [3, 4].length).bind (genrand64_int64_outputs refMacros 5) = some xs ∧
      xs.length = 5)) :=
  ⟨zeroState_length, List.length_replicate _ _, by decide,
    C6_reseed_deterministic refMacros zeroState
      { mt := List.replicate NN 5, mti := 17, initialized := true } 9 [3, 4] 5
      zeroState_length (List.length_replicate _ _) (by decide)⟩

/-- C7. Reading before seeding, on the zero-initialized state the caller
creates (all words 0, cursor 0, not initialized): the first call of
`genrand64_int64` does not seed; it returns 0, the tempering of `words[0] = 0`,
and leaves the state not initialized, whereas on the state seeded with
`init_genrand64(s, 5489)` the first call returns 14514284786278117030 (with
the macros of the published program). -/
theorem C7_unseeded_read_returns_zero :
    (∀ c, genrand64_int64 c zeroState = some (0, { zeroState with mti := 1 })) ∧
    (init_genrand64 zeroState 5489).bind
        (fun s => (genrand64_int64 refMacros s).map Prod.fst)
      = some 14514284786278117030 := by
  constructor
  · intro c
    rw [genrand64_int64_read c zeroState (by decide) (by decide) zeroState_length]
    rfl
  · obtain ⟨s1, h1, hl1, hw1, hm1, hi1⟩ := init_genrand64_words zeroState 5489 zeroState_length
    obtain ⟨s2, h2⟩ := genrand64_int64_first refMacros s1 hi1 (by rw [hm1]) hl1
    rw [hw1 0 (by decide), hw1 1 (by decide), hw1 156 (by decide), seed5489_first_value] at h2
    rw [h1]
    simp only [Option.some_bind, h2, Option.map_some']

/-- C9. The all-zero state never occurs immediately after seeding: for every
seed (0 included) the words left by `init_genrand64` contain a non-zero word,
and for every non-empty key sequence so do the words left by
`init_by_array64`. -/
theorem C9_seeded_words_nonzero (s : mt64_t) (seed : Nat) (keys : List Nat)
    (hl : s.mt.length = NN) (hk : keys ≠ []) :
    (∃ s', init_genrand64 s seed = some s' ∧ ∃ i, i < 312 ∧ s'.mt.getD i 0 ≠ 0) ∧
    (∃ s', init_by_array64 s keys keys.length = some s' ∧
      ∃ i, i < 312 ∧ s'.mt.getD i 0 ≠ 0) := by
  constructor
  · obtain ⟨s', h, _, hz, hr, _, _⟩ := init_genrand64_post s seed hl
    refine ⟨s', h, ?_⟩
    by_cases h0 : seed = 0
    · refine ⟨1, by omega, ?_⟩
      have := hr 1 (by omega) (by unfold NN; omega)
      rw [this]
      simp only [Nat.sub_self, hz, h0]
      decide
    · exact ⟨0, by omega, by rw [hz]; exact h0⟩
  · obtain ⟨s', h, _, hz, _, _⟩ := init_by_array64_post s keys hl (List.length_pos.mpr hk)
    exact ⟨s', h, 0, by omega, by rw [hz]; decide⟩

theorem C9_seeded_words_nonzero_witness :
    zeroState.mt.length = NN ∧ [0] ≠ ([] : List Nat) ∧
    ((∃ s', init_genrand64 zeroState 0 = some s' ∧ ∃ i, i < 312 ∧ s'.mt.getD i 0 ≠ 0) ∧
    (∃ s', init_by_array64 zeroState [0] [0].length = some s' ∧
      ∃ i, i < 312 ∧ s'.mt.getD i 0 ≠ 0)) :=
  ⟨zeroState_length, by decide,
    C9_seeded_words_nonzero zeroState 0 [0] zeroState_length (by decide)⟩

/-- C10. Twist trigger boundary: starting from a state just seeded by
`init_genrand64` or `init_by_array64`, for every `k >= 1` the `k`-th
consecutive call of `genrand64_int64` twists (finds `cursor >= NN`) if and only
if `k mod 312 = 1`, the cursor after the `k`-th call is `((k-1) mod 312) + 1`,
and every call that does not twist leaves the words unchanged. -/
theorem C10_twist_boundary (c : Macros) (s0 : mt64_t) (seed : Nat) (keys : List Nat) (k : Nat)
    (hl : s0.mt.length = NN) (hkeys : keys ≠ []) (hk : 1 ≤ k) :
    (∃ s, init_genrand64 s0 seed = some s) ∧
    (∃ s, init_by_array64 s0 keys keys.length = some s) ∧
    ∀ s, init_genrand64 s0 seed = some s ∨ init_by_array64 s0 keys keys.length = some s →
      ∃ pre x post, genrand64_int64_state c (k - 1) s = some pre ∧
        genrand64_int64 c pre = some (x, post) ∧
        (pre.mti ≥ NN ↔ k % 312 = 1) ∧
        post.mti = ((k - 1) % 312 : Nat) + 1 ∧
        (¬ pre.mti ≥ NN → post.mt = pre.mt) := by
  obtain ⟨a, ha, hla, _, _, hma, _⟩ := init_genrand64_post s0 seed hl
  obtain ⟨b, hb, hlb, _, hmb, _⟩ := init_by_array64_post s0 keys hl (List.length_pos.mpr hkeys)
  refine ⟨⟨a, ha⟩, ⟨b, hb⟩, ?_⟩
  intro s hs
  rcases hs with hs | hs
  · have : s = a := by rw [ha] at hs; exact (Option.some.inj hs).symm
    subst this
    exact twist_boundary c s hma hla k hk
  · have : s = b := by rw [hb] at hs; exact (Option.some.inj hs).symm
    subst this
    exact twist_boundary c s hmb hlb k hk

theorem C10_twist_boundary_witness :
    zeroState.mt.length = NN ∧ [1] ≠ ([] : List Nat) ∧ 1 ≤ 313 ∧
    ((∃ s, init_genrand64 zeroState 1 = some s) ∧
    (∃ s, init_by_array64 zeroState [1] [1].length = some s) ∧
    ∀ s, init_genrand64 zeroState 1 = some s ∨
        init_by_array64 zeroState [1] [1].length = some s →
      ∃ pre x post, genrand64_int64_state refMacros (313 - 1) s = some pre ∧
        genrand64_int64 refMacros pre = some (x, post) ∧
        (pre.mti ≥ NN ↔ 313 % 312 = 1) ∧
        post.mti = ((313 - 1) % 312 : Nat) + 1 ∧
        (¬ pre.mti ≥ NN → post.mt = pre.mt)) :=
  ⟨zeroState_length, by decide, by decide,
    C10_twist_boundary refMacros zeroState 1 [1] 313 zeroState_length (by decide) (by decide)⟩

/-- C11. Half-open real output: on every state of 64-bit words with a
non-negative cursor, `genrand64_real2` returns `(r >> 11) / 2^53`, `r` the raw
output of `genrand64_int64` on that state; as an exact rational this value `v`
satisfies `0 <= v < 1` and is an integer multiple of `2^-53`. -/
theorem C11_real2_half_open (c : Macros) (s : mt64_t) (hA : c.MATRIX_A < 2 ^ 64)
    (h0 : 0 ≤ s.mti) (hl : s.mt.length = NN) (hw : ∀ i, s.mt.getD i 0 < 2 ^ 64) :
    ∃ r s' v, genrand64_int64 c s = some (r, s') ∧ genrand64_real2 c s = some (v, s') ∧
      v = ((r >>> 11 : Nat) : ℚ) / 2 ^ 53 ∧ 0 ≤ v ∧ v < 1 ∧
      ∃ n : ℤ, v = n * (1 / 2 ^ 53) := by
  obtain ⟨r, s', h, hr⟩ := genrand64_int64_lt c s hA h0 hl hw
  have hn := shr11_lt r hr
  refine ⟨r, s', ((r >>> 11 : Nat) : ℚ) / 2 ^ 53, h, ?_, rfl, by positivity, ?_, ?_⟩
  · rw [genrand64_real2_eq, h]
    simp only [Option.map_some', Option.some.injEq, Prod.mk.injEq, and_true]
    norm_num
    ring
  · rw [div_lt_one (by positivity)]
    exact_mod_cast hn
  · exact ⟨(r >>> 11 : Nat), by push_cast; ring⟩

theorem C11_real2_half_open_witness :
    refMacros.MATRIX_A < 2 ^ 64 ∧ (0 : Int) ≤ zeroState.mti ∧ zeroState.mt.length = NN ∧
    (∀ i, zeroState.mt.getD i 0 < 2 ^ 64) ∧
    ∃ r s' v, genrand64_int64 refMacros zeroState = some (r, s') ∧
      genrand64_real2 refMacros zeroState = some (v, s') ∧
      v = ((r >>> 11 : Nat) : ℚ) / 2 ^ 53 ∧ 0 ≤ v ∧ v < 1 ∧
      ∃ n : ℤ, v = n * (1 / 2 ^ 53) :=
  ⟨by decide, by decide, zeroState_length, fun i => by rw [zeroState_words]; norm_num,
    C11_real2_half_open refMacros zeroState (by decide) (by decide) zeroState_length
      (fun i => by rw [zeroState_words]; norm_num)⟩

/-- C12. Open real output: on every state of 64-bit words with a non-negative
cursor, `genrand64_real3` returns `((r >> 12) + 1/2) / 2^52`, `r` the raw
output; as an exact rational this value `v` satisfies `0 < v < 1`, with
`2^-53 <= v <= 1 - 2^-53`; the value `2^-53` is returned on the state of zero
words and `1 - 2^-53` on a state whose word tempers to `2^64 - 1`. -/
theorem C12_real3_open (c : Macros) (s : mt64_t) (hA : c.MATRIX_A < 2 ^ 64)
    (h0 : 0 ≤ s.mti) (hl : s.mt.length = NN) (hw : ∀ i, s.mt.getD i 0 < 2 ^ 64) :
    (∃ r s' v, genrand64_int64 c s = some (r, s') ∧ genrand64_real3 c s = some (v, s') ∧
      v = (((r >>> 12 : Nat) : ℚ) + 1 / 2) / 2 ^ 52 ∧ 0 < v ∧ v < 1 ∧
      1 / 2 ^ 53 ≤ v ∧ v ≤ 1 - 1 / 2 ^ 53) ∧
    (∃ s', genrand64_real3 c zeroState = some (1 / 2 ^ 53, s')) ∧
    (∃ s', genrand64_real3 c
      { mt := List.replicate NN 263883065185796437, mti := 0, initialized := true }
        = some (1 - 1 / 2 ^ 53, s')) := by
  refine ⟨?_, ?_, ?_⟩
  · obtain ⟨r, s', h, hr⟩ := genrand64_int64_lt c s hA h0 hl hw
    have hn := shr12_lt r hr
    have hq : ((r >>> 12 : Nat) : ℚ) + 1 ≤ 2 ^ 52 := by
      have : r >>> 12 + 1 ≤ 2 ^ 52 := hn
      exact_mod_cast this
    have hq0 : (0 : ℚ) ≤ ((r >>> 12 : Nat) : ℚ) := by positivity
    refine ⟨r, s', (((r >>> 12 : Nat) : ℚ) + 1 / 2) / 2 ^ 52, h, ?_, rfl, by positivity, ?_,
      ?_, ?_⟩
    · rw [genrand64_real3_eq, h]
      simp only [Option.map_some', Option.some.injEq, Prod.mk.injEq, and_true]
      norm_num
      ring
    · rw [div_lt_one (by positivity)]
      linarith
    · rw [le_div_iff₀ (by positivity)]
      norm_num
    · rw [div_le_iff₀ (by positivity)]
      norm_num at hq ⊢
      linarith
  · refine ⟨{ zeroState with mti := zeroState.mti + 1 }, ?_⟩
    rw [genrand64_real3_eq, genrand64_int64_read c zeroState (by decide) (by decide)
      zeroState_length]
    simp only [Option.map_some', Option.some.injEq, Prod.mk.injEq, and_true]
    have : temper (zeroState.mt.getD zeroState.mti.toNat 0) = 0 := by
      rw [zeroState_words]; decide
    rw [this]
    norm_num
  · refine ⟨⟨List.replicate NN 263883065185796437, 0 + 1, true⟩, ?_⟩
    rw [genrand64_real3_eq, genrand64_int64_read c _ (by decide) (by decide)
      (List.length_replicate _ _)]
    simp only [Option.map_some', Option.some.injEq, Prod.mk.injEq, and_true]
    have : temper ((List.replicate NN 263883065185796437).getD (0 : Int).toNat 0)
        = 18446744073709551615 := by
      rw [show (0 : Int).toNat = 0 from rfl, replicate_getD NN _ 0 (by decide)]
      decide
    have e : 18446744073709551615 >>> 12 = 4503599627370495 := by decide
    rw [this, e]
    norm_num

theorem C12_real3_open_witness :
    refMacros.MATRIX_A < 2 ^ 64 ∧ (0 : Int) ≤ zeroState.mti ∧ zeroState.mt.length = NN ∧
    (∀ i, zeroState.mt.getD i 0 < 2 ^ 64) ∧
    ((∃ r s' v, genrand64_int64 refMacros zeroState = some (r, s') ∧
      genrand64_real3 refMacros zeroState = some (v, s') ∧
      v = (((r >>> 12 : Nat) : ℚ) + 1 / 2) / 2 ^ 52 ∧ 0 < v ∧ v < 1 ∧
      1 / 2 ^ 53 ≤ v ∧ v ≤ 1 - 1 / 2 ^ 53) ∧
    (∃ s', genrand64_real3 refMacros zeroState = some (1 / 2 ^ 53, s')) ∧
    (∃ s', genrand64_real3 refMacros
      { mt := List.replicate NN 263883065185796437, mti := 0, initialized := true }
        = some (1 - 1 / 2 ^ 53, s'))) :=
  ⟨by decide, by decide, zeroState_length, fun i => by rw [zeroState_words]; norm_num,
    C12_real3_open refMacros zeroState (by decide) (by decide) zeroState_length
      (fun i => by rw [zeroState_words]; norm_num)⟩

/-- Counterexample for C13: on the state whose word
7131579283742854122 tempers to `2^64 - 4096`, so that `r >> 11 = 2^53 - 2`,
`genrand64_real1` returns 1, which is not `(r >> 11) / (2^53 - 1)`, and
`r >> 11` is not `2^53 - 1`. -/
theorem C13_real1_closed_counterexample :
    ∃ r s', genrand64_int64 refMacros
        { mt := List.replicate NN 7131579283742854122, mti := 0, initialized := true }
        = some (r, s') ∧
      r >>> 11 = 2 ^ 53 - 2 ∧
      genrand64_real1 refMacros
        { mt := List.replicate NN 7131579283742854122, mti := 0, initialized := true }
        = some (1, s') ∧
      ((r >>> 11 : Nat) : ℚ) / (2 ^ 53 - 1) ≠ 1 ∧ r >>> 11 ≠ 2 ^ 53 - 1 := by
  have hr := genrand64_int64_read refMacros
    { mt := List.replicate NN 7131579283742854122, mti := 0, initialized := true }
    (by decide) (by decide) (List.length_replicate _ _)
  have ht : temper ((List.replicate NN 7131579283742854122).getD (0 : Int).toNat 0)
      = 18446744073709547520 := by
    rw [show (0 : Int).toNat = 0 from rfl, replicate_getD NN _ 0 (by decide)]
    decide
  have hs : 18446744073709547520 >>> 11 = 2 ^ 53 - 2 := by decide
  simp only [ht] at hr
  refine ⟨18446744073709547520, _, hr, hs, ?_, ?_, ?_⟩
  · rw [genrand64_real1_eq, hr]
    simp only [Option.map_some', hs]
    rw [(mulRecip53_eq_one (2 ^ 53 - 2) (by norm_num)).2 (le_refl _)]
  · rw [hs]; norm_num
  · rw [hs]; norm_num

/-- C13. Closed real output: on every state of 64-bit words with a
non-negative cursor, `genrand64_real1` returns the double product of `r >> 11`
and the double `1.0/9007199254740991.0 = (2^52 + 1) / 2^105`, that is
`(r >> 11) * (2^52 + 1)` rounded to 53 significant bits and divided by `2^105`,
`r` the raw output; this value `v` satisfies `0 <= v <= 1`, `v = 0` exactly when
`r >> 11 = 0`, `v = 1` exactly when `r >> 11 >= 2^53 - 2`, and `v` is within
`2^-52` of `(r >> 11) / (2^53 - 1)`. -/
theorem C13_real1_closed (c : Macros) (s : mt64_t) (hA : c.MATRIX_A < 2 ^ 64)
    (h0 : 0 ≤ s.mti) (hl : s.mt.length = NN) (hw : ∀ i, s.mt.getD i 0 < 2 ^ 64) :
    ∃ r s' v, genrand64_int64 c s = some (r, s') ∧ genrand64_real1 c s = some (v, s') ∧
      v = (round53 ((r >>> 11) * (2 ^ 52 + 1)) : ℚ) / 2 ^ 105 ∧
      (((r >>> 11) * (2 ^ 52 + 1) : Nat) : ℚ) / 2 ^ 105 = ((r >>> 11 : Nat) : ℚ) * recip53 ∧
      0 ≤ v ∧ v ≤ 1 ∧
      (v = 0 ↔ r >>> 11 = 0) ∧ (v = 1 ↔ 2 ^ 53 - 2 ≤ r >>> 11) ∧
      |v - ((r >>> 11 : Nat) : ℚ) / (2 ^ 53 - 1)| < 1 / 2 ^ 52 := by
  obtain ⟨r, s', h, hr⟩ := genrand64_int64_lt c s hA h0 hl hw
  have hn := shr11_lt r hr
  refine ⟨r, s', mulRecip53 (r >>> 11), h, ?_, rfl, mulRecip53_exact _, mulRecip53_nonneg _,
    mulRecip53_le_one _ hn, mulRecip53_eq_zero _, mulRecip53_eq_one _ hn,
    mulRecip53_near _ hn⟩
  rw [genrand64_real1_eq, h]
  rfl

theorem C13_real1_closed_witness :
    refMacros.MATRIX_A < 2 ^ 64 ∧ (0 : Int) ≤ zeroState.mti ∧ zeroState.mt.length = NN ∧
    (∀ i, zeroState.mt.getD i 0 < 2 ^ 64) ∧
    ∃ r s' v, genrand64_int64 refMacros zeroState = some (r, s') ∧
      genrand64_real1 refMacros zeroState = some (v, s') ∧
      v = (round53 ((r >>> 11) * (2 ^ 52 + 1)) : ℚ) / 2 ^ 105 ∧
      (((r >>> 11) * (2 ^ 52 + 1) : Nat) : ℚ) / 2 ^ 105 = ((r >>> 11 : Nat) : ℚ) * recip53 ∧
      0 ≤ v ∧ v ≤ 1 ∧
      (v = 0 ↔ r >>> 11 = 0) ∧ (v = 1 ↔ 2 ^ 53 - 2 ≤ r >>> 11) ∧
      |v - ((r >>> 11 : Nat) : ℚ) / (2 ^ 53 - 1)| < 1 / 2 ^ 52 :=
  ⟨by decide, by decide, zeroState_length, fun i => by rw [zeroState_words]; norm_num,
    C13_real1_closed refMacros zeroState (by decide) (by decide) zeroState_length
      (fun i => by rw [zeroState_words]; norm_num)⟩

/-- C14. Signed 63-bit output: on every state of 64-bit words with a
non-negative cursor, `genrand64_int63` returns `r >> 1`, `r` the raw output of
`genrand64_int64` on that state; the conversion to `int64_t` does not change
the value, which is non-negative and at most `2^63 - 1`. -/
theorem C14_int63_range (c : Macros) (s : mt64_t) (hA : c.MATRIX_A < 2 ^ 64)
    (h0 : 0 ≤ s.mti) (hl : s.mt.length = NN) (hw : ∀ i, s.mt.getD i 0 < 2 ^ 64) :
    ∃ r s' v, genrand64_int64 c s = some (r, s') ∧ genrand64_int63 c s = some (v, s') ∧
      v = ((r >>> 1 : Nat) : Int) ∧ 0 ≤ v ∧ v ≤ 2 ^ 63 - 1 := by
  obtain ⟨r, s', h, hr⟩ := genrand64_int64_lt c s hA h0 hl hw
  have hn := shr1_lt r hr
  refine ⟨r, s', ((r >>> 1 : Nat) : Int), h, ?_, rfl, by positivity, ?_⟩
  · rw [genrand64_int63_eq, h]
    simp only [Option.map_some', Option.some.injEq, Prod.mk.injEq, and_true]
    unfold toI64
    rw [if_pos hn]
  · have : ((r >>> 1 : Nat) : Int) < 2 ^ 63 := by exact_mod_cast hn
    omega

theorem C14_int63_range_witness :
    refMacros.MATRIX_A < 2 ^ 64 ∧ (0 : Int) ≤ zeroState.mti ∧ zeroState.mt.length = NN ∧
    (∀ i, zeroState.mt.getD i 0 < 2 ^ 64) ∧
    ∃ r s' v, genrand64_int64 refMacros zeroState = some (r, s') ∧
      genrand64_int63 refMacros zeroState = some (v, s') ∧
      v = ((r >>> 1 : Nat) : Int) ∧ 0 ≤ v ∧ v ≤ 2 ^ 63 - 1 :=
  ⟨by decide, by decide, zeroState_length, fun i => by rw [zeroState_words]; norm_num,
    C14_int63_range refMacros zeroState (by decide) (by decide) zeroState_length
      (fun i => by rw [zeroState_words]; norm_num)⟩

/-- C15. Every derived output consumes exactly one state word: on every state
with a non-negative cursor, `genrand64_int63`, `genrand64_real1`,
`genrand64_real2` and `genrand64_real3` leave the state a single
`genrand64_int64` call leaves, and return a function of that call's raw
result `r` alone. -/
theorem C15_derived_consume_one (c : Macros) (s : mt64_t)
    (h0 : 0 ≤ s.mti) (hl : s.mt.length = NN) :
    ∃ r s', genrand64_int64 c s = some (r, s') ∧
      genrand64_int63 c s = some (toI64 (r >>> 1), s') ∧
      genrand64_real1 c s = some (mulRecip53 (r >>> 11), s') ∧
      genrand64_real2 c s = some (((r >>> 11 : Nat) : ℚ) * (1 / 9007199254740992), s') ∧
      genrand64_real3 c s
        = some ((((r >>> 12 : Nat) : ℚ) + 1 / 2) * (1 / 4503599627370496), s') := by
  obtain ⟨r, s', h, _⟩ := genrand64_int64_total c s h0 hl
  refine ⟨r, s', h, ?_, ?_, ?_, ?_⟩
  · rw [genrand64_int63_eq, h]; rfl
  · rw [genrand64_real1_eq, h]; rfl
  · rw [genrand64_real2_eq, h]; rfl
  · rw [genrand64_real3_eq, h]; rfl

theorem C15_derived_consume_one_witness :
    (0 : Int) ≤ zeroState.mti ∧ zeroState.mt.length = NN ∧
    ∃ r s', genrand64_int64 refMacros zeroState = some (r, s') ∧
      genrand64_int63 refMacros zeroState = some (toI64 (r >>> 1), s') ∧
      genrand64_real1 refMacros zeroState = some (mulRecip53 (r >>> 11), s') ∧
      genrand64_real2 refMacros zeroState
        = some (((r >>> 11 : Nat) : ℚ) * (1 / 9007199254740992), s') ∧
      genrand64_real3 refMacros zeroState
        = some ((((r >>> 12 : Nat) : ℚ) + 1 / 2) * (1 / 4503599627370496), s') :=
  ⟨by decide, zeroState_length,
    C15_derived_consume_one refMacros zeroState (by decide) zeroState_length⟩

/-- C16. Array seeding is defined exactly for non-empty key sequences: with
`keys` holding `key_len` elements, `init_by_array64` returns a state (every
read of `keys` and every read and write of the words in range) if
`key_len >= 1`, and fails if `key_len = 0`, at the read of `keys[0]` in the
first step of the mixing loop, after a scalar seeding that succeeds. -/
theorem C16_array_seeding_defined (s : mt64_t) (keys : List Nat) (hl : s.mt.length = NN) :
    (init_by_array64 s keys keys.length = none ↔ keys = []) ∧
    (keys ≠ [] → ∃ s', init_by_array64 s keys keys.length = some s') ∧
    ∃ s0, init_genrand64 s 19650218 = some s0 ∧
      rd s0.mt 1 = some (s0.mt.getD 1 0) ∧ rd s0.mt ((1 : Int) - 1) = some (s0.mt.getD 0 0) ∧
      rd ([] : List Nat) 0 = none ∧
      init_by_array64_body1 [] 0 0 { mt := s0.mt, i := 1, j := 0 } = none ∧
      init_by_array64 s [] 0 = none := by
  have hne : keys ≠ [] → ∃ s', init_by_array64 s keys keys.length = some s' := by
    intro hk
    obtain ⟨s', h, _⟩ := init_by_array64_post s keys hl (List.length_pos.mpr hk)
    exact ⟨s', h⟩
  obtain ⟨s0, e1, e2, e3, e4, e5, e6⟩ := init_by_array64_empty s hl
  refine ⟨⟨?_, ?_⟩, hne, s0, e1, e2, e3, e4, e5, e6⟩
  · intro hnone
    by_contra hk
    obtain ⟨s', h⟩ := hne hk
    rw [hnone] at h
    exact Option.noConfusion h
  · intro hk
    subst hk
    exact e6

theorem C16_array_seeding_defined_witness :
    zeroState.mt.length = NN ∧
    ((init_by_array64 zeroState [5] [5].length = none ↔ [5] = ([] : List Nat)) ∧
    ([5] ≠ ([] : List Nat) → ∃ s', init_by_array64 zeroState [5] [5].length = some s') ∧
    ∃ s0, init_genrand64 zeroState 19650218 = some s0 ∧
      rd s0.mt 1 = some (s0.mt.getD 1 0) ∧ rd s0.mt ((1 : Int) - 1) = some (s0.mt.getD 0 0) ∧
      rd ([] : List Nat) 0 = none ∧
      init_by_array64_body1 [] 0 0 { mt := s0.mt, i := 1, j := 0 } = none ∧
      init_by_array64 zeroState [] 0 = none) :=
  ⟨zeroState_length, C16_array_seeding_defined zeroState [5] zeroState_length⟩

/-- C17. The all-zero vector is a fixed point: on every state with all 312
words 0 and `initialized = true` (any cursor `>= 0`), every call of
`genrand64_int64` returns 0 and leaves all 312 words 0, for any number `n` of
calls. -/
theorem C17_zero_fixed_point (c : Macros) (s : mt64_t) (n : Nat)
    (hz : s.mt = List.replicate NN 0) (hi : s.initialized = true) (h0 : 0 ≤ s.mti) :
    genrand64_int64_outputs c n s = some (List.replicate n 0) ∧
    ∃ t, genrand64_int64_state c n s = some t ∧ t.mt = List.replicate NN 0 := by
  obtain ⟨t, ht, hzt, _⟩ := genrand64_int64_state_zero c s hz hi h0 n
  exact ⟨genrand64_int64_outputs_zero c n s hz hi h0, t, ht, hzt⟩

theorem C17_zero_fixed_point_witness :
    ({ mt := List.replicate NN 0, mti := 312, initialized := true } : mt64_t).mt
      = List.replicate NN 0 ∧
    ({ mt := List.replicate NN 0, mti := 312, initialized := true } : mt64_t).initialized
      = true ∧
    (0 : Int) ≤ ({ mt := List.replicate NN 0, mti := 312, initialized := true } : mt64_t).mti ∧
    (genrand64_int64_outputs refMacros 1000
        { mt := List.replicate NN 0, mti := 312, initialized := true }
      = some (List.replicate 1000 0) ∧
    ∃ t, genrand64_int64_state refMacros 1000
        { mt := List.replicate NN 0, mti := 312, initialized := true } = some t ∧
      t.mt = List.replicate NN 0) :=
  ⟨rfl, rfl, by decide,
    C17_zero_fixed_point refMacros { mt := List.replicate NN 0, mti := 312, initialized := true }
      1000 rfl rfl (by decide)⟩

/-- C18. Upper/lower split of the mixing value, with the masks as the
specification describes them (`UM = 2^63`, `LM = 2^63 - 1`): in every twist
step `x = (words[i] AND UM) OR (words[i+1] AND LM)` takes bit 63 from
`words[i]` and bits 0..62 from `words[i+1]`, and the twisted words do not
depend on bits 0..62 of the word 0 the twist starts from. -/
theorem C18_upper_lower_split (A : Nat) (old : List Nat) (w' : Nat) (hl : old.length = NN)
    (hb : w'.testBit 63 = (old.getD 0 0).testBit 63) :
    (specSplit A).UM = 2 ^ 63 ∧ (specSplit A).LM = 2 ^ 63 - 1 ∧
    (∀ a b k, ((a &&& (specSplit A).UM) ||| (b &&& (specSplit A).LM)).testBit k
      = if k = 63 then a.testBit 63 else (decide (k < 63) && b.testBit k)) ∧
    twist_words (specSplit A) (old.set 0 w') = twist_words (specSplit A) old ∧
    ∃ new, twist_words (specSplit A) old = some new := by
  obtain ⟨new, hnew, _⟩ := twist_words_post (specSplit A) old hl
  exact ⟨rfl, rfl, spec_x_specSplit_testBit A, twist_words_specSplit A old w' hl hb, new, hnew⟩

theorem C18_upper_lower_split_witness :
    (List.replicate NN 0).length = NN ∧
    Nat.testBit 9223372036854775807 63 = ((List.replicate NN 0).getD 0 0).testBit 63 ∧
    ((specSplit 0xB5026F5AA96619E9).UM = 2 ^ 63 ∧
    (specSplit 0xB5026F5AA96619E9).LM = 2 ^ 63 - 1 ∧
    (∀ a b k, ((a &&& (specSplit 0xB5026F5AA96619E9).UM) |||
        (b &&& (specSplit 0xB5026F5AA96619E9).LM)).testBit k
      = if k = 63 then a.testBit 63 else (decide (k < 63) && b.testBit k)) ∧
    twist_words (specSplit 0xB5026F5AA96619E9) ((List.replicate NN 0).set 0 9223372036854775807)
      = twist_words (specSplit 0xB5026F5AA96619E9) (List.replicate NN 0) ∧
    ∃ new, twist_words (specSplit 0xB5026F5AA96619E9) (List.replicate NN 0) = some new) :=
  ⟨List.length_replicate _ _, by rw [replicate_zero_getD]; decide,
    C18_upper_lower_split 0xB5026F5AA96619E9 (List.replicate NN 0) 9223372036854775807
      (List.length_replicate _ _) (by rw [replicate_zero_getD]; decide)⟩

/-- C19. Cursor range invariant: after `init_genrand64` or `init_by_array64`
the cursor is 312 and `initialized` is true; on every state with cursor `>= 0`
(cursor above 312 and unseeded states included) every output call returns,
all its accesses to the words being in range, and leaves `1 <= cursor <= 312`,
312 words, and `initialized` true when it was true; the four derived outputs
leave the same state. -/
theorem C19_cursor_range (c : Macros) (s1 s : mt64_t) (seed : Nat) (keys : List Nat)
    (hl1 : s1.mt.length = NN) (hk : keys ≠ []) (hl : s.mt.length = NN) (h0 : 0 ≤ s.mti) :
    (∃ t, init_genrand64 s1 seed = some t ∧ t.mti = 312 ∧ t.initialized = true) ∧
    (∃ t, init_by_array64 s1 keys keys.length = some t ∧ t.mti = 312 ∧
      t.initialized = true) ∧
    ∃ r t, genrand64_int64 c s = some (r, t) ∧ 1 ≤ t.mti ∧ t.mti ≤ 312 ∧
      t.mt.length = 312 ∧ (s.initialized = true → t.initialized = true) ∧
      (∃ v, genrand64_int63 c s = some (v, t)) ∧ (∃ v, genrand64_real1 c s = some (v, t)) ∧
      (∃ v, genrand64_real2 c s = some (v, t)) ∧ (∃ v, genrand64_real3 c s = some (v, t)) := by
  obtain ⟨a, ha, _, _, _, hma, hia⟩ := init_genrand64_post s1 seed hl1
  obtain ⟨b, hb, _, _, hmb, hib⟩ := init_by_array64_post s1 keys hl1 (List.length_pos.mpr hk)
  obtain ⟨r, t, h, h1, h2, h3, h4⟩ := genrand64_int64_range c s h0 hl
  refine ⟨⟨a, ha, hma, hia⟩, ⟨b, hb, hmb, hib⟩, r, t, h, h1, h2, h3, h4, ?_, ?_, ?_, ?_⟩
  · exact ⟨_, by rw [genrand64_int63_eq, h]; rfl⟩
  · exact ⟨_, by rw [genrand64_real1_eq, h]; rfl⟩
  · exact ⟨_, by rw [genrand64_real2_eq, h]; rfl⟩
  · exact ⟨_, by rw [genrand64_real3_eq, h]; rfl⟩

theorem C19_cursor_range_witness :
    zeroState.mt.length = NN ∧ [1, 2] ≠ ([] : List Nat) ∧
    ({ mt := List.replicate NN 7, mti := 5000, initialized := false } : mt64_t).mt.length = NN ∧
    (0 : Int) ≤ ({ mt := List.replicate NN 7, mti := 5000, initialized := false } : mt64_t).mti ∧
    ((∃ t, init_genrand64 zeroState 3 = some t ∧ t.mti = 312 ∧ t.initialized = true) ∧
    (∃ t, init_by_array64 zeroState [1, 2] [1, 2].length = some t ∧ t.mti = 312 ∧
      t.initialized = true) ∧
    ∃ r t, genrand64_int64 refMacros
        { mt := List.replicate NN 7, mti := 5000, initialized := false } = some (r, t) ∧
      1 ≤ t.mti ∧ t.mti ≤ 312 ∧ t.mt.length = 312 ∧
      (({ mt := List.replicate NN 7, mti := 5000, initialized := false } : mt64_t).initialized
        = true → t.initialized = true) ∧
      (∃ v, genrand64_int63 refMacros
        { mt := List.replicate NN 7, mti := 5000, initialized := false } = some (v, t)) ∧
      (∃ v, genrand64_real1 refMacros
        { mt := List.replicate NN 7, mti := 5000, initialized := false } = some (v, t)) ∧
      (∃ v, genrand64_real2 refMacros
        { mt := List.replicate NN 7, mti := 5000, initialized := false } = some (v, t)) ∧
      (∃ v, genrand64_real3 refMacros
        { mt := List.replicate NN 7, mti := 5000, initialized := false } = some (v, t))) :=
  ⟨zeroState_length, by decide, List.length_replicate _ _, by decide,
    C19_cursor_range refMacros zeroState
      { mt := List.replicate NN 7, mti := 5000, initialized := false } 3 [1, 2]
      zeroState_length (by decide) (List.length_replicate _ _) (by decide)⟩

/-- C20. The tempering transform `T` that `genrand64_int64` applies to the
consumed state word is a bijection on 64-bit words: `T(a) = T(b)` implies
`a = b` for all 64-bit `a`, `b`, and `T` maps the 64-bit words onto
themselves. -/
theorem C20_temper_bijective (a b : Nat) (ha : a < 2 ^ 64) (hb : b < 2 ^ 64)
    (h : temper a = temper b) :
    a = b ∧
    Function.Bijective
      (fun x : Fin (2 ^ 64) => (⟨temper x.1, temper_lt x.1 x.2⟩ : Fin (2 ^ 64))) := by
  refine ⟨temper_inj a b ha hb h, ?_⟩
  apply Finite.injective_iff_bijective.mp
  intro x y hxy
  exact Fin.ext (temper_inj _ _ x.2 y.2 (congrArg Fin.val hxy))

theorem C20_temper_bijective_witness :
    (5489 : Nat) < 2 ^ 64 ∧ (5489 : Nat) < 2 ^ 64 ∧ temper 5489 = temper 5489 ∧
    (5489 = 5489 ∧
    Function.Bijective
      (fun x : Fin (2 ^ 64) => (⟨temper x.1, temper_lt x.1 x.2⟩ : Fin (2 ^ 64)))) :=
  ⟨by norm_num, by norm_num, rfl, C20_temper_bijective 5489 5489 (by norm_num) (by norm_num) rfl⟩

end MT64
